import Mathlib

/-!
Verification development for the slack-event-bot repository.

The repository contains three near-identical implementations of the same
reminder bot (one in part_001, two in part_000 separated by a document
marker; the second part_000 variant is referred to as "variant 3" below,
the part_000 copy that mirrors part_001 as "variant 1").  The shallow
embedding below models, from the source:

  - the fixed-offset (+09:00) minute-key computation: parseJstToIso,
    the JS Date ISO-string parser (as V8 implements it for the string
    shapes this program produces), and formatJst, part_001's
    Intl.DateTimeFormat-based renderer with timeZone Asia/Tokyo,
    modeled for the zone's fixed-offset era (1952 onwards; see the
    definition's comment for the pre-1952 tzdata history left outside
    the model).  Year "numeric" renders without zero padding, the
    2-digit fields are zero padded; formatting an Invalid Date throws,
    modeled as none;
  - the event store operations loadEvents / nextId and the /event
    command handler of part_001 (subcommands add / list / remove /
    delete), including its save behavior, plus the pieces of variant 3
    that the claims cite (parseAddArgs, its nextId, its del handler,
    its loadEvents);
  - the scheduler tick of part_001 (per-record key comparison against
    the nowKey, delivery via an oracle, in-place notified update,
    single conditional save), where the delivery outcome of the n-th
    postMessage call of a tick is an oracle value, and a thrown
    exception inside the loop (formatJst on an unparsable isoJst)
    aborts the tick before any save, as the setInterval driver catches
    it.

JS numbers that hold event ids are modeled as Int (they are integral in
the program); the JS NaN results of Number coercion are modeled with
Option Int (none = NaN).  Calendar arithmetic is the proleptic Gregorian
calendar that JS Date uses.  Strings are modeled as Lean Strings; the
whitespace tokenizer models String.split on /\s+/ for space characters.
-/

namespace SlackEventBot

/-! ## Proleptic Gregorian calendar, as used by JS Date -/

/-- Leap-year rule of the proleptic Gregorian calendar (the rule JS Date
applies to every year). -/
def isLeap (y : Int) : Bool :=
  (y % 4 == 0 && y % 100 != 0) || y % 400 == 0

/-- Number of days of month m (1..12) of year y; 0 for out-of-range m. -/
def daysInMonth (y : Int) (m : Nat) : Nat :=
  match m with
  | 1 => 31 | 2 => if isLeap y then 29 else 28 | 3 => 31
  | 4 => 30 | 5 => 31 | 6 => 30 | 7 => 31 | 8 => 31
  | 9 => 30 | 10 => 31 | 11 => 30 | 12 => 31
  | _ => 0

/-- A civil date-time (wall-clock fields), the value JS Date arithmetic
works with once an ISO string is parsed.  sec is carried only for
instant comparison; the minute keys never show it. -/
structure CivilDT where
  year : Int
  month : Nat
  day : Nat
  hour : Nat
  minute : Nat
  sec : Nat
deriving DecidableEq, Repr

/-- Calendar predecessor of a day. -/
def predDay (y : Int) (m d : Nat) : Int × Nat × Nat :=
  if 1 < d then (y, m, d - 1)
  else if 1 < m then (y, m - 1, daysInMonth y (m - 1))
  else (y - 1, 12, 31)

/-- Calendar successor of a day. -/
def succDay (y : Int) (m d : Nat) : Int × Nat × Nat :=
  if d < daysInMonth y m then (y, m, d + 1)
  else if m < 12 then (y, m + 1, 1)
  else (y + 1, 1, 1)

/-- Shift a civil date-time by off minutes, with -1440 < off and the
shifted time-of-day staying within one day of the original (the only
uses are timezone offsets, |off| < 24h, applied to a valid
time-of-day). -/
def shiftMinutes (c : CivilDT) (off : Int) : CivilDT :=
  let tot : Int := (c.hour : Int) * 60 + (c.minute : Int) + off
  if tot < 0 then
    let p := predDay c.year c.month c.day
    ⟨p.1, p.2.1, p.2.2, (tot + 1440).toNat / 60, (tot + 1440).toNat % 60, c.sec⟩
  else if tot < 1440 then
    ⟨c.year, c.month, c.day, tot.toNat / 60, tot.toNat % 60, c.sec⟩
  else
    let s := succDay c.year c.month c.day
    ⟨s.1, s.2.1, s.2.2, (tot - 1440).toNat / 60, (tot - 1440).toNat % 60, c.sec⟩

/-- Strict chronological order on civil date-times (all at the same
offset, so field-lexicographic order is instant order). -/
def civilLt (a b : CivilDT) : Bool :=
  if a.year ≠ b.year then a.year < b.year
  else if a.month ≠ b.month then a.month < b.month
  else if a.day ≠ b.day then a.day < b.day
  else if a.hour ≠ b.hour then a.hour < b.hour
  else if a.minute ≠ b.minute then a.minute < b.minute
  else a.sec < b.sec

/-! ## Decimal digits and string rendering -/

/-- The decimal digit character for n < 10. -/
def dchar (n : Nat) : Char := Char.ofNat (48 + n)

/-- Numeric value of a digit character. -/
def toDig (c : Char) : Nat := c.toNat - 48

/-- Digit test, matching the \d character class on ASCII. -/
def isDig (c : Char) : Bool := 48 ≤ c.toNat && c.toNat ≤ 57

/-- Two-digit zero-padded rendering (the "2-digit" Intl fields and
String.padStart(2, "0")), for n < 100. -/
def pad2 (n : Nat) : List Char := [dchar (n / 10), dchar (n % 10)]

/-- Four-digit zero-padded rendering, for n < 10000. -/
def pad4 (n : Nat) : List Char :=
  [dchar (n / 1000), dchar (n / 100 % 10), dchar (n / 10 % 10), dchar (n % 10)]

/-- Minimal decimal rendering of a Nat, with structural fuel so that it
evaluates in the kernel; decList n uses fuel n+1, which always
suffices. -/
def decListAux : Nat → Nat → List Char
  | 0, _ => []
  | fuel + 1, n =>
    if n < 10 then [dchar n] else decListAux fuel (n / 10) ++ [dchar (n % 10)]

/-- Minimal decimal rendering of a Nat (no zero padding), as JS template
interpolation and Intl year "numeric" render numbers. -/
def decList (n : Nat) : List Char := decListAux (n + 1) n

/-- Minimal decimal rendering of an Int. -/
def intStr (i : Int) : List Char :=
  if i < 0 then '-' :: decList (-i).toNat else decList i.toNat

/-- The date token YYYY-MM-DD rendered from its three numeric fields;
strings matching the source regex \d{4}-\d{2}-\d{2} are exactly the
renderings with y < 10000, m < 100, d < 100. -/
def renderDateS (y m d : Nat) : String :=
  String.mk (pad4 y ++ '-' :: pad2 m ++ '-' :: pad2 d)

/-- The time token HH:mm rendered from its two numeric fields; strings
matching \d{2}:\d{2} are exactly the renderings with h < 100, mi < 100. -/
def renderTimeS (h mi : Nat) : String :=
  String.mk (pad2 h ++ ':' :: pad2 mi)

/-! ## parseJstToIso, the JS Date ISO parser, and formatJst -/

/-- parseJstToIso of part_001 line 97 (and part_000 line 94): template
concatenation, pinning the offset to +09:00. -/
def parseJstToIso (dateStr timeStr : String) : String :=
  dateStr ++ "T" ++ timeStr ++ ":00+09:00"

/-- Raw field extraction of an ISO date-time string of the shape
YYYY-MM-DDTHH:mm:ss+HH:MM (sign + or -), the only shape this program
builds and compares; other shapes parse to none.  Returns the civil
fields together with the offset in minutes. -/
def jsParseCivil (s : String) : Option (CivilDT × Int) :=
  match s.toList with
  | [y1, y2, y3, y4, '-', m1, m2, '-', d1, d2, 'T',
     h1, h2, ':', n1, n2, ':', s1, s2, sg, o1, o2, ':', p1, p2] =>
    if isDig y1 && isDig y2 && isDig y3 && isDig y4 &&
       isDig m1 && isDig m2 && isDig d1 && isDig d2 &&
       isDig h1 && isDig h2 && isDig n1 && isDig n2 &&
       isDig s1 && isDig s2 && isDig o1 && isDig o2 &&
       isDig p1 && isDig p2 then
      let sign : Option Int :=
        if sg = '+' then some 1 else if sg = '-' then some (-1) else none
      match sign with
      | none => none
      | some sg =>
        some (⟨(toDig y1 * 1000 + toDig y2 * 100 + toDig y3 * 10 + toDig y4 : Nat),
               toDig m1 * 10 + toDig m2, toDig d1 * 10 + toDig d2,
               toDig h1 * 10 + toDig h2, toDig n1 * 10 + toDig n2,
               toDig s1 * 10 + toDig s2⟩,
              sg * ((toDig o1 * 10 + toDig o2 : Nat) * 60 + (toDig p1 * 10 + toDig p2 : Nat)))
  else none
  | _ => none

/-- Validity of the parsed fields, as V8 checks them for ISO strings:
month 1..12, day within the month, time 00:00:00 .. 23:59:59 or the
special 24:00:00, offset hour at most 23 and offset minute at most
59. -/
def civilValid (c : CivilDT) (off : Int) : Bool :=
  1 ≤ c.month && c.month ≤ 12 && 1 ≤ c.day && c.day ≤ daysInMonth c.year c.month &&
  ((c.hour ≤ 23 && c.minute ≤ 59 && c.sec ≤ 59) ||
   (c.hour == 24 && c.minute == 0 && c.sec == 0)) &&
  -1440 < off && off < 1440

/-- The model of new Date(s) for the ISO shapes above: parse, validate,
normalize 24:00 to the next day, and convert to UTC civil time by
subtracting the offset.  none models an Invalid Date. -/
def jsDateUtc (s : String) : Option CivilDT :=
  match jsParseCivil s with
  | none => none
  | some (c, off) =>
    if civilValid c off then
      let c1 : CivilDT :=
        if c.hour == 24 then
          let n := succDay c.year c.month c.day
          ⟨n.1, n.2.1, n.2.2, 0, 0, 0⟩
        else c
      some (shiftMinutes c1 (-off))
    else none

/-- The minute-key rendering of a civil date-time, as
Intl.DateTimeFormat("ja-JP") with year "numeric" and 2-digit
month/day/hour/minute produces it: the year has no zero padding, the
other fields have two digits. -/
def renderKey (c : CivilDT) : String :=
  String.mk (intStr c.year ++ '-' :: pad2 c.month ++ '-' :: pad2 c.day ++
             ' ' :: pad2 c.hour ++ ':' :: pad2 c.minute)

/-- formatJst of part_001 lines 58-76: new Date(isoString), then the
Intl rendering at timeZone Asia/Tokyo.  The +540-minute shift models
the zone in its fixed-offset era, 1952 onwards, where tzdata has
Asia/Tokyo at a constant +09:00 with no DST and the Gregorian calendar
agrees with ICU's; instants before 1952 fall outside the modeled
domain (tzdata applies LMT +9:18:59 before 1888 and +10:00 during the
1948-1951 DST summers, and ICU renders pre-1582-10-15 dates in the
Julian calendar), so no theorem below asserts a concrete key for them.
Formatting an Invalid Date throws a RangeError, modeled as none. -/
def formatJst (isoString : String) : Option String :=
  (jsDateUtc isoString).map (fun u => renderKey (shiftMinutes u 540))

/-- formatJst of variant 3 (part_000 lines 303-311): the same Date
parse, but rendered through the local-timezone getters
(getFullYear etc.), modeled with the host UTC offset in minutes as a
parameter.  On an Invalid Date every getter is NaN and the template
interpolates the string NaN (it does not throw). -/
def formatJstLocal (hostOff : Int) (iso : String) : String :=
  match jsDateUtc iso with
  | some u => renderKey (shiftMinutes u hostOff)
  | none => "NaN-NaN-NaN NaN:NaN"

/-! ## Event records and id assignment -/

/-- A JSON value sitting in an id field: a number, a string, or any
other non-numeric value (whose Number coercion is NaN). -/
inductive Jid where
  | num (n : Int)
  | str (s : String)
  | other
deriving DecidableEq, Repr

/-- Value of a nonempty all-digit character list. -/
def digitsVal (l : List Char) : Nat := l.foldl (fun a c => a * 10 + toDig c) 0

/-- JS Number coercion of a string, restricted to the optionally signed
decimal integers this program ever feeds it ("" coerces to 0; anything
else non-integral is modeled as NaN = none). -/
def jsNumStr (s : String) : Option Int :=
  match s.toList with
  | [] => some 0
  | '-' :: rest =>
    if rest ≠ [] && rest.all isDig then some (-(digitsVal rest : Int)) else none
  | '+' :: rest =>
    if rest ≠ [] && rest.all isDig then some ((digitsVal rest : Int)) else none
  | l => if l.all isDig then some ((digitsVal l : Int)) else none

/-- JS Number coercion of an id field value (none = NaN). -/
def jidNum : Jid → Option Int
  | .num n => some n
  | .str s => jsNumStr s
  | .other => none

/-- Template interpolation of an id value into a reply line. -/
def jidStr : Jid → String
  | .num n => String.mk (intStr n)
  | .str s => s
  | .other => "NaN"

/-- The persisted event record (part_001 lines 158-163). -/
structure Event where
  id : Jid
  isoJst : String
  title : String
  notified : Bool
deriving DecidableEq, Repr

/-- Loop body of part_001's nextId: skip NaN coercions, otherwise take
the max. -/
def nextIdStep (mx : Int) (e : Event) : Int :=
  match jidNum e.id with
  | some n => max mx n
  | none => mx

/-- nextId of part_001 lines 102-109: max over the Number coercions of
the ids, skipping NaN, starting from 0, plus one. -/
def nextId (events : List Event) : Int :=
  (events.foldl nextIdStep 0) + 1

/-- nextId of part_000 lines 100-103: reduce with
Math.max(m, Number(e.id) || 0) from 0, plus one (NaN || 0 is 0). -/
def nextIdB (events : List Event) : Int :=
  (events.foldl (fun mx e => max mx ((jidNum e.id).getD 0)) 0) + 1

/-- The Number coercions of the ids, or none (NaN) as soon as one id
does not coerce - the arguments Math.max receives. -/
def coercedIds : List Event → Option (List Int)
  | [] => some []
  | e :: es =>
    match jidNum e.id with
    | none => none
    | some n => (coercedIds es).map (fun l => n :: l)

/-- nextId of variant 3 (part_000 lines 275-277):
events.length ? Math.max(...events.map(e => e.id)) + 1 : 1.  Math.max
coerces each argument; a single NaN makes the whole result NaN
(none). -/
def nextIdC (events : List Event) : Option Int :=
  match events with
  | [] => some 1
  | _ =>
    match coercedIds events with
    | none => none
    | some [] => some 1
    | some (v :: vs) => some (vs.foldl max v + 1)

/-! ## Tokenization and the regex tests -/

/-- Whitespace splitting of a character list: the runs of non-space
characters, in order (models trim() followed by split on one-or-more
whitespace, for space characters). -/
def wsGo : List Char → List Char → List (List Char)
  | [], acc => if acc = [] then [] else [acc.reverse]
  | c :: cs, acc =>
    if c = ' ' then
      if acc = [] then wsGo cs [] else acc.reverse :: wsGo cs []
    else wsGo cs (c :: acc)

/-- Tokenizer used by every handler: text.trim().split(one or more
spaces), dropping empty tokens. -/
def toks (s : String) : List String := (wsGo s.toList []).map String.mk

/-- Array.prototype.join with a separator. -/
def joinWith (sep : String) : List String → String
  | [] => ""
  | [t] => t
  | t :: t' :: ts => t ++ sep ++ joinWith sep (t' :: ts)

/-- Test of the date regex \d{4}-\d{2}-\d{2} (anchored). -/
def matchDate (s : String) : Bool :=
  match s.toList with
  | [a, b, c, d, '-', e, f, '-', g, h] =>
    isDig a && isDig b && isDig c && isDig d &&
    isDig e && isDig f && isDig g && isDig h
  | _ => false

/-- Test of the time regex \d{2}:\d{2} (anchored). -/
def matchTime (s : String) : Bool :=
  match s.toList with
  | [a, b, ':', c, d] => isDig a && isDig b && isDig c && isDig d
  | _ => false

/-! ## Sorting (Array.prototype.sort models) -/

/-- Insert into a le-sorted list. -/
def insertLe (le : Event → Event → Bool) (a : Event) : List Event → List Event
  | [] => [a]
  | b :: bs => if le a b then a :: b :: bs else b :: insertLe le a bs

/-- Sorted output of Array.prototype.sort for a comparator whose
induced le relation is total and transitive (ties may be emitted in
either order; none of the verified properties depend on tie order). -/
def sortByLe (le : Event → Event → Bool) : List Event → List Event
  | [] => []
  | a :: as => insertLe le a (sortByLe le as)

/-- Lexicographic order on character lists by code unit, modeling the
JS string comparison a.isoJst > b.isoJst of part_001 line 174. -/
def clLe : List Char → List Char → Bool
  | [], _ => true
  | _ :: _, [] => false
  | a :: as, b :: bs =>
    if a.toNat < b.toNat then true
    else if b.toNat < a.toNat then false
    else clLe as bs

/-- The le relation of part_001's list comparator (string order on the
stored isoJst). -/
def isoLe (a b : Event) : Bool := clLe a.isoJst.toList b.isoJst.toList

/-- The le relation of variant 3's comparator
new Date(a.isoJst) - new Date(b.isoJst) (instant order; a NaN
difference is treated as 0 by sort, modeled as both-directions le). -/
def isoLeV3 (a b : Event) : Bool :=
  match jsDateUtc a.isoJst, jsDateUtc b.isoJst with
  | some x, some y => !(civilLt y x)
  | _, _ => true

/-! ## Reply texts (part_001) -/

/-- Help text of part_001 lines 111-122. -/
def helpText : String :=
  "使い方:\n• /event add YYYY-MM-DD HH:mm タイトル\n• /event list\n• /event remove ID\n\n例:\n• /event add 2026-01-12 20:27 Render自動投稿テスト\n• /event remove 3"

def errFormatMsg : String := "❌ 形式が違います。\n" ++ helpText

def errDateMsg : String :=
  "❌ 日付/時刻の形式が違います（YYYY-MM-DD / HH:mm）。\n" ++ helpText

def addOkMsg (id : Int) (key title : String) : String :=
  "登録しました ✅ ID=" ++ String.mk (intStr id) ++ "\n" ++ key ++ "  " ++ title

def noEventsMsg : String := "イベントはありません。"

def listHeader : String := "イベント一覧（最大50件）"

def glyphOf (e : Event) : String := if e.notified then "✅" else "⏳"

/-- One list line of part_001 line 183. -/
def lineOf (e : Event) (key : String) : String :=
  "• [" ++ jidStr e.id ++ "] " ++ key ++ "  " ++ e.title ++ "  " ++ glyphOf e

def errRemoveMsg : String := "❌ remove の形式が違います。\n例: /event remove 3"

def errIdMsg : String := "❌ ID は数字で指定してください。\n例: /event remove 3"

def notFoundMsg (id : Int) : String :=
  "⚠️ ID=" ++ String.mk (intStr id) ++ " は見つかりませんでした。"

def removedMsg (id : Int) : String :=
  "削除しました ✅ ID=" ++ String.mk (intStr id)

def unknownMsg : String := "❓ サブコマンドが分かりません。\n" ++ helpText

/-! ## The part_001 command handler -/

/-- Result of one command invocation: the persisted store afterwards,
how many saveEvents calls ran, and the respond() payload (none when the
handler threw after its mutations, e.g. formatJst on an Invalid
Date). -/
structure CmdOut where
  store : List Event
  saves : Nat
  reply : Option String
deriving DecidableEq, Repr

/-- Rendering of the list lines; a formatJst throw aborts the reply. -/
def renderLines : List Event → Option (List String)
  | [] => some []
  | e :: es =>
    match formatJst e.isoJst with
    | none => none
    | some k => (renderLines es).map (fun ls => lineOf e k :: ls)

/-- The /event slash-command handler of part_001 lines 125-215, after
tokenization.  Branch order, messages, the save points and the
save-before-respond order follow the source. -/
def handleTokens (tokens : List String) (events : List Event) : CmdOut :=
  match tokens with
  | [] => ⟨events, 0, some helpText⟩
  | sub :: rest =>
    if sub = "add" then
      match rest with
      | dateStr :: timeStr :: t0 :: ts =>
        if ¬(matchDate dateStr ∧ matchTime timeStr) then
          ⟨events, 0, some errDateMsg⟩
        else
          let isoJst := parseJstToIso dateStr timeStr
          let id := nextId events
          let title := joinWith (" ") (t0 :: ts)
          let events' := events ++ [⟨Jid.num id, isoJst, title, false⟩]
          match formatJst isoJst with
          | some k => ⟨events', 1, some (addOkMsg id k title)⟩
          | none => ⟨events', 1, none⟩
      | _ => ⟨events, 0, some errFormatMsg⟩
    else if sub = "list" then
      let sorted := sortByLe isoLe events
      if sorted = [] then ⟨events, 0, some noEventsMsg⟩
      else
        match renderLines (sorted.take 50) with
        | some ls =>
          ⟨events, 0, some (joinWith ("\n") (listHeader :: ls))⟩
        | none => ⟨events, 0, none⟩
    else if sub = "remove" ∨ sub = "delete" then
      match rest with
      | [] => ⟨events, 0, some errRemoveMsg⟩
      | idt :: _ =>
        match jsNumStr idt with
        | none => ⟨events, 0, some errIdMsg⟩
        | some id =>
          let after := events.filter (fun e => !(jidNum e.id == some id))
          ⟨after, 1,
           some (if after.length = events.length then notFoundMsg id else removedMsg id)⟩
    else ⟨events, 0, some unknownMsg⟩

/-- The handler on raw command text. -/
def handleEvent (text : String) (events : List Event) : CmdOut :=
  handleTokens (toks text) events

/-! ## Variant 3 pieces (part_000 after the document marker) -/

/-- parseAddArgs of variant 3 (part_000 lines 280-301): token count,
nonempty title, both regexes, hour 0-23 and minute 0-59, rebuild the
ISO string with padStart, and reject when new Date gives an Invalid
Date.  Returns (isoJst, title). -/
def parseAddArgs (text : String) : Option (String × String) :=
  match toks text with
  | dateStr :: timeStr :: titleToks =>
    if titleToks = [] then none
    else
      let title := joinWith (" ") titleToks
      if title = "" then none
      else if !(matchDate dateStr) then none
      else if !(matchTime timeStr) then none
      else
        match timeStr.toList with
        | [a, b, ':', c, d] =>
          let hh := toDig a * 10 + toDig b
          let mm := toDig c * 10 + toDig d
          if 23 < hh then none
          else if 59 < mm then none
          else
            let isoJst := String.mk (dateStr.toList ++ 'T' :: pad2 hh ++ ':' :: pad2 mm ++
              [':', '0', '0', '+', '0', '9', ':', '0', '0'])
            if (jsDateUtc isoJst).isSome then some (isoJst, title) else none
        | _ => none
  | _ => none

def usageV3 : String :=
  "使い方:\n• /event add YYYY-MM-DD HH:mm タイトル\n• /event list\n• /event del ID\n例）/event add 2026-01-12 09:30 朝活ミーティング"

def addUsageV3 : String := "形式: /event add 2026-01-12 09:30 朝活ミーティング"

def addOkV3Msg (id : Option Int) (key title : String) : String :=
  "登録しました ✅  ID=" ++ (match id with | some n => String.mk (intStr n) | none => "NaN") ++
  "\n" ++ key ++ "  " ++ title

def listEmptyV3 : String := "登録されているイベントはありません。"

def delUsageV3 : String := "例: /event del 1"

def delNotFoundV3 (id : Int) : String :=
  "ID=" ++ String.mk (intStr id) ++ " は見つかりませんでした。"

def delOkV3 (id : Int) : String := "削除しました ✅  ID=" ++ String.mk (intStr id)

def unknownV3 : String := "不明なコマンドです。/event（引数なし）で使い方が出ます。"

/-- The add branch of variant 3 (part_000 lines 355-373): parse, assign
the id via its nextId (possibly NaN), push with notified false, sort by
instant, save, confirm.  hostOff is the host timezone offset used by
its local-time formatJst in the reply. -/
def addV3 (hostOff : Int) (restText : String) (events : List Event) : CmdOut :=
  match parseAddArgs restText with
  | none => ⟨events, 0, some addUsageV3⟩
  | some (isoJst, title) =>
    let id := nextIdC events
    let idJ : Jid := match id with | some n => Jid.num n | none => Jid.other
    let events' := sortByLe isoLeV3 (events ++ [⟨idJ, isoJst, title, false⟩])
    ⟨events', 1, some (addOkV3Msg id (formatJstLocal hostOff isoJst) title)⟩

/-- The list branch of variant 3 (part_000 lines 375-388): sort by
instant, at most 50 lines, no save (its local-time formatJst never
throws). -/
def listV3 (hostOff : Int) (events : List Event) : CmdOut :=
  let sorted := sortByLe isoLeV3 events
  if sorted = [] then ⟨events, 0, some listEmptyV3⟩
  else
    let ls := (sorted.take 50).map (fun e => lineOf e (formatJstLocal hostOff e.isoJst))
    ⟨events, 0, some ("イベント一覧（最大50件）\n" ++ joinWith ("\n") ls)⟩

/-- The del branch of variant 3 (part_000 lines 390-407): integer id,
filter with strict equality (no Number coercion of the stored id), and
save only when something matched. -/
def delV3Run (rest : List String) (events : List Event) : CmdOut :=
  match rest with
  | [] => ⟨events, 0, some delUsageV3⟩
  | idt :: _ =>
    match jsNumStr idt with
    | none => ⟨events, 0, some delUsageV3⟩
    | some id =>
      let filtered := events.filter (fun e => !(e.id == Jid.num id))
      if filtered.length = events.length then ⟨events, 0, some (delNotFoundV3 id)⟩
      else ⟨filtered, 1, some (delOkV3 id)⟩

/-- The /event handler of variant 3 (part_000 lines 335-410). -/
def handleTokensV3 (hostOff : Int) (tokens : List String) (events : List Event) : CmdOut :=
  match tokens with
  | [] => ⟨events, 0, some usageV3⟩
  | sub :: rest =>
    if sub = "add" then addV3 hostOff (joinWith (" ") rest) events
    else if sub = "list" then listV3 hostOff events
    else if sub = "del" then delV3Run rest events
    else ⟨events, 0, some unknownV3⟩

/-! ## The scheduler tick (part_001 lines 240-259) -/

/-- Mark a record notified. -/
def markE (e : Event) : Event := { e with notified := true }

/-- The tick loop body: walk the loaded records; for each unnotified
one compute its due key with formatJst (a throw aborts the whole tick:
none) and on key equality attempt delivery; the outcome of the n-th
delivery call of the tick is deliver n.  Returns the walked records and
the changed flag. -/
def tickGo (nowKey : String) (deliver : Nat → Bool) :
    List Event → Nat → Bool → Option (List Event × Bool)
  | [], _, changed => some ([], changed)
  | e :: es, calls, changed =>
    if e.notified then
      (tickGo nowKey deliver es calls changed).map (fun r => (e :: r.1, r.2))
    else
      match formatJst e.isoJst with
      | none => none
      | some ek =>
        if ek = nowKey then
          if deliver calls then
            (tickGo nowKey deliver es (calls + 1) true).map (fun r => (markE e :: r.1, r.2))
          else
            (tickGo nowKey deliver es (calls + 1) changed).map (fun r => (e :: r.1, r.2))
        else
          (tickGo nowKey deliver es calls changed).map (fun r => (e :: r.1, r.2))

/-- One tick over the loaded store. -/
def tickRun (nowKey : String) (deliver : Nat → Bool) (events : List Event) :
    Option (List Event × Bool) :=
  tickGo nowKey deliver events 0 false

/-- The persisted store after a tick: the walked records when the tick
completed (when nothing changed they equal the input and the file is
not rewritten), the untouched input when the tick threw (the
setInterval driver catches the exception before any save). -/
def tickStore (nowKey : String) (deliver : Nat → Bool) (events : List Event) : List Event :=
  match tickRun nowKey deliver events with
  | some r => r.1
  | none => events

/-- Number of saveEvents calls a tick performs. -/
def tickSaves (nowKey : String) (deliver : Nat → Bool) (events : List Event) : Nat :=
  match tickRun nowKey deliver events with
  | some r => if r.2 then 1 else 0
  | none => 0

/-! ## The persisted file (ensureDataFile / loadEvents) -/

/-- What the backing events.json currently holds. -/
inductive FileContent where
  | arr (events : List Event)
  | nonArrJson
  | badJson
deriving DecidableEq, Repr

/-- ensureDataFile of part_001 lines 36-40: write [] only when the file
does not exist. -/
def ensureDataFile : Option FileContent → Option FileContent
  | none => some (.arr [])
  | some c => some c

/-- loadEvents of part_001 lines 42-52: ensure the file, read, parse;
a non-array parse yields [], a parse error is caught and yields [].
Returns the events and the file state afterwards. -/
def loadEvents1 (fs : Option FileContent) : List Event × Option FileContent :=
  let fs' := ensureDataFile fs
  match fs' with
  | some (.arr es) => (es, fs')
  | some .nonArrJson => ([], fs')
  | some .badJson => ([], fs')
  | none => ([], fs')

/-- loadEvents of variant 3 (part_000 lines 268-271): no ensure, no
isArray check; a missing file or a parse error is caught and yields [],
but a parseable non-array value is returned as-is (none here: the
return value is not a sequence of events). -/
def loadEvents3 (fs : Option FileContent) : Option (List Event) × Option FileContent :=
  match fs with
  | none => (some [], fs)
  | some (.arr es) => (some es, fs)
  | some .nonArrJson => (none, fs)
  | some .badJson => (some [], fs)

/-! ## Interleavings of commands and ticks (part_001) -/

/-- One event source firing: a slash command with its text, or a
scheduler tick with its minute key and delivery outcomes. -/
inductive Op where
  | cmd (text : String)
  | tk (nowKey : String) (deliver : Nat → Bool)

/-- Effect of one operation on the persisted store. -/
def applyOp (s : List Event) : Op → List Event
  | .cmd t => (handleEvent t s).store
  | .tk nk dv => tickStore nk dv s

/-- Effect of a sequence of operations on the persisted store. -/
def applyOps (s : List Event) (ops : List Op) : List Event := ops.foldl applyOp s

/-- The operation is a remove/delete command whose id token coerces to
the same number as the record's id (the only way any command deletes a
record). -/
def removesOp (op : Op) (e : Event) : Prop :=
  match op with
  | .cmd t =>
    match toks t with
    | sub :: idt :: _ =>
      (sub = "remove" ∨ sub = "delete") ∧
      ∃ n, jsNumStr idt = some n ∧ jidNum e.id = some n
    | _ => False
  | .tk _ _ => False


/-! ## Due records and tick bookkeeping -/

/-- A record the tick will attempt to deliver: unnotified and with due
key equal to the tick's nowKey (part_001 lines 246-249). -/
def dueB (nowKey : String) (e : Event) : Bool :=
  !e.notified && (formatJst e.isoJst == some nowKey)

/-- Number of delivery calls the tick loop makes strictly before
reaching index i: the due records among the first i. -/
def callsBefore (nowKey : String) (events : List Event) (i : Nat) : Nat :=
  ((events.take i).filter (dueB nowKey)).length

/-- Functional description of the walked records of a tick: each due
record is marked exactly when its own delivery call succeeds. -/
def tickSpec (nowKey : String) (deliver : Nat → Bool) : List Event → Nat → List Event
  | [], _ => []
  | e :: es, calls =>
    if dueB nowKey e then
      (if deliver calls then markE e else e) :: tickSpec nowKey deliver es (calls + 1)
    else e :: tickSpec nowKey deliver es calls

/-- Whether any delivery call of the tick succeeds (the changed
flag of a completed tick). -/
def anyDel (nowKey : String) (deliver : Nat → Bool) : List Event → Nat → Bool
  | [], _ => false
  | e :: es, calls =>
    if dueB nowKey e then deliver calls || anyDel nowKey deliver es (calls + 1)
    else anyDel nowKey deliver es calls

/-- The Number-coercible ids present in a collection. -/
def numericIds (events : List Event) : List Int :=
  events.filterMap (fun e => jidNum e.id)

/-! ## Digit and rendering lemmas -/

lemma isDig_dchar {k : Nat} (h : k < 10) : isDig (dchar k) = true := by
  interval_cases k <;> decide

lemma toDig_dchar {k : Nat} (h : k < 10) : toDig (dchar k) = k := by
  interval_cases k <;> decide

lemma decListAux_fuel : ∀ f g n, n < 10 ^ f → n < 10 ^ g → 1 ≤ f → 1 ≤ g →
    decListAux f n = decListAux g n := by
  intro f
  induction f with
  | zero => intro g n _ _ h; omega
  | succ f ih =>
    intro g n hf hg _ hg1
    cases g with
    | zero => omega
    | succ g =>
      by_cases h : n < 10
      · simp [decListAux, h]
      · have e1 : decListAux (f + 1) n = decListAux f (n / 10) ++ [dchar (n % 10)] := by
          rw [decListAux, if_neg h]
        have e2 : decListAux (g + 1) n = decListAux g (n / 10) ++ [dchar (n % 10)] := by
          rw [decListAux, if_neg h]
        have hf1 : 1 ≤ f := by
          by_contra hc
          have hf0 : f = 0 := by omega
          subst hf0
          simp at hf
          omega
        have hg2 : 1 ≤ g := by
          by_contra hc
          have hg0 : g = 0 := by omega
          subst hg0
          simp at hg
          omega
        have df : n / 10 < 10 ^ f := by
          rw [Nat.div_lt_iff_lt_mul (by norm_num)]
          calc n < 10 ^ (f + 1) := hf
            _ = 10 ^ f * 10 := by ring
        have dg : n / 10 < 10 ^ g := by
          rw [Nat.div_lt_iff_lt_mul (by norm_num)]
          calc n < 10 ^ (g + 1) := hg
            _ = 10 ^ g * 10 := by ring
        rw [e1, e2, ih g (n / 10) df dg hf1 hg2]

lemma decList_eq_pad4 {y : Nat} (h1 : 1000 ≤ y) (h2 : y ≤ 9999) : decList y = pad4 y := by
  unfold decList
  have hy1 : y < 10 ^ (y + 1) := by
    calc y < 10 ^ y := Nat.lt_pow_self (by norm_num) y
      _ ≤ 10 ^ (y + 1) := Nat.pow_le_pow_right (by norm_num) (by omega)
  rw [decListAux_fuel (y + 1) 4 y hy1 (by norm_num; omega) (by omega) (by norm_num)]
  have s1 : decListAux 4 y =
      if y < 10 then [dchar y] else decListAux 3 (y / 10) ++ [dchar (y % 10)] := rfl
  have s2 : decListAux 3 (y / 10) =
      if y / 10 < 10 then [dchar (y / 10)]
      else decListAux 2 (y / 10 / 10) ++ [dchar (y / 10 % 10)] := rfl
  have s3 : decListAux 2 (y / 10 / 10) =
      if y / 10 / 10 < 10 then [dchar (y / 10 / 10)]
      else decListAux 1 (y / 10 / 10 / 10) ++ [dchar (y / 10 / 10 % 10)] := rfl
  have s4 : decListAux 1 (y / 10 / 10 / 10) =
      if y / 10 / 10 / 10 < 10 then [dchar (y / 10 / 10 / 10)]
      else decListAux 0 (y / 10 / 10 / 10 / 10) ++ [dchar (y / 10 / 10 / 10 % 10)] := rfl
  rw [s1, if_neg (by omega), s2, if_neg (by omega), s3, if_neg (by omega), s4, if_pos (by omega)]
  have d3 : y / 10 / 10 / 10 = y / 1000 := by omega
  have d2 : y / 10 / 10 = y / 100 := by omega
  rw [d3, d2]
  simp [pad4]

lemma renderKey_eq (y m d hh mi : Nat) (h1 : 1000 ≤ y) (h2 : y ≤ 9999) :
    renderKey ⟨(y : Int), m, d, hh, mi, 0⟩ =
      renderDateS y m d ++ " " ++ renderTimeS hh mi := by
  have hneg : ¬ ((y : Int) < 0) := by omega
  have ht : ((y : Int)).toNat = y := by omega
  unfold renderKey intStr
  dsimp only
  rw [if_neg hneg, ht, decList_eq_pad4 h1 h2]
  rfl

/-! ## Calendar round-trip lemmas -/

lemma daysInMonth_le (y : Int) (m : Nat) : daysInMonth y m ≤ 31 := by
  unfold daysInMonth
  split <;> (try split_ifs) <;> norm_num

lemma succDay_predDay (y : Int) (m d : Nat) (hm1 : 1 ≤ m) (hm2 : m ≤ 12)
    (hd1 : 1 ≤ d) (hd2 : d ≤ daysInMonth y m) :
    succDay (predDay y m d).1 (predDay y m d).2.1 (predDay y m d).2.2 = (y, m, d) := by
  unfold predDay succDay
  by_cases h1 : 1 < d
  · simp only [if_pos h1]
    have hlt : d - 1 < daysInMonth y m := by omega
    simp only [if_pos hlt]
    have heq : d - 1 + 1 = d := by omega
    simp [heq]
  · have hd : d = 1 := by omega
    subst hd
    simp only [if_neg h1]
    by_cases h2 : 1 < m
    · simp only [if_pos h2]
      have hne : ¬ (daysInMonth y (m - 1) < daysInMonth y (m - 1)) := by omega
      simp only [if_neg hne]
      have hlt : m - 1 < 12 := by omega
      simp only [if_pos hlt]
      have heq : m - 1 + 1 = m := by omega
      simp [heq]
    · have hm : m = 1 := by omega
      subst hm
      simp only [if_neg h2]
      norm_num [daysInMonth]

lemma shift_roundtrip (c : CivilDT) (hm1 : 1 ≤ c.month) (hm2 : c.month ≤ 12)
    (hd1 : 1 ≤ c.day) (hd2 : c.day ≤ daysInMonth c.year c.month)
    (hh : c.hour ≤ 23) (hmin : c.minute ≤ 59) :
    shiftMinutes (shiftMinutes c (-540)) 540 = c := by
  obtain ⟨y, mo, d, h, mi, s⟩ := c
  simp only at hm1 hm2 hd1 hd2 hh hmin
  unfold shiftMinutes
  by_cases hbig : (540 : Int) ≤ (h : Int) * 60 + (mi : Int)
  · have c1 : ¬ ((h : Int) * 60 + (mi : Int) + (-540) < 0) := by omega
    have c2 : (h : Int) * 60 + (mi : Int) + (-540) < 1440 := by omega
    simp only [if_neg c1, if_pos c2]
    have e1 : (((h : Int) * 60 + (mi : Int) + (-540)).toNat : Nat) = h * 60 + mi - 540 := by
      omega
    simp only [e1]
    have c3 : ¬ ((((h * 60 + mi - 540) / 60 : Nat) : Int) * 60 +
        (((h * 60 + mi - 540) % 60 : Nat) : Int) + 540 < 0) := by omega
    have c4 : (((h * 60 + mi - 540) / 60 : Nat) : Int) * 60 +
        (((h * 60 + mi - 540) % 60 : Nat) : Int) + 540 < 1440 := by omega
    simp only [if_neg c3, if_pos c4]
    have e2 : ((((h * 60 + mi - 540) / 60 : Nat) : Int) * 60 +
        (((h * 60 + mi - 540) % 60 : Nat) : Int) + 540).toNat = h * 60 + mi := by omega
    simp only [e2]
    congr 1 <;> omega
  · have c1 : (h : Int) * 60 + (mi : Int) + (-540) < 0 := by omega
    simp only [if_pos c1]
    have e1 : (((h : Int) * 60 + (mi : Int) + (-540) + 1440).toNat : Nat) = h * 60 + mi + 900 := by
      omega
    simp only [e1]
    have c3 : ¬ ((((h * 60 + mi + 900) / 60 : Nat) : Int) * 60 +
        (((h * 60 + mi + 900) % 60 : Nat) : Int) + 540 < 0) := by omega
    have c4 : ¬ ((((h * 60 + mi + 900) / 60 : Nat) : Int) * 60 +
        (((h * 60 + mi + 900) % 60 : Nat) : Int) + 540 < 1440) := by omega
    simp only [if_neg c3, if_neg c4]
    have hsp := succDay_predDay y mo d hm1 hm2 hd1 hd2
    have e2 : ((((h * 60 + mi + 900) / 60 : Nat) : Int) * 60 +
        (((h * 60 + mi + 900) % 60 : Nat) : Int) + 540 - 1440).toNat = h * 60 + mi := by omega
    simp only [e2]
    rw [hsp]
    simp only [CivilDT.mk.injEq]
    refine ⟨trivial, trivial, trivial, ?_, ?_, trivial⟩ <;> omega

/-! ## Parsing the rendered ISO strings -/

lemma iso_toList (y m d hh mi : Nat) :
    (parseJstToIso (renderDateS y m d) (renderTimeS hh mi)).toList =
      pad4 y ++ '-' :: pad2 m ++ '-' :: pad2 d ++ 'T' :: pad2 hh ++ ':' :: pad2 mi ++
        [':', '0', '0', '+', '0', '9', ':', '0', '0'] := by
  show (renderDateS y m d ++ "T" ++ renderTimeS hh mi ++ ":00+09:00").data = _
  simp [renderDateS, renderTimeS, String.data_append]

lemma jsParseCivil_iso (y m d hh mi : Nat) (hy2 : y ≤ 9999) (hm2 : m ≤ 99) (hd2 : d ≤ 99)
    (hh2 : hh ≤ 99) (hmi2 : mi ≤ 99) :
    jsParseCivil (parseJstToIso (renderDateS y m d) (renderTimeS hh mi)) =
      some (⟨(y : Int), m, d, hh, mi, 0⟩, 540) := by
  unfold jsParseCivil
  rw [iso_toList]
  simp only [pad4, pad2, List.cons_append, List.nil_append]
  simp only [isDig_dchar (by omega : y / 1000 < 10), isDig_dchar (by omega : y / 100 % 10 < 10),
    isDig_dchar (by omega : y / 10 % 10 < 10), isDig_dchar (by omega : y % 10 < 10),
    isDig_dchar (by omega : m / 10 < 10), isDig_dchar (by omega : m % 10 < 10),
    isDig_dchar (by omega : d / 10 < 10), isDig_dchar (by omega : d % 10 < 10),
    isDig_dchar (by omega : hh / 10 < 10), isDig_dchar (by omega : hh % 10 < 10),
    isDig_dchar (by omega : mi / 10 < 10), isDig_dchar (by omega : mi % 10 < 10)]
  simp only [toDig_dchar (by omega : y / 1000 < 10), toDig_dchar (by omega : y / 100 % 10 < 10),
    toDig_dchar (by omega : y / 10 % 10 < 10), toDig_dchar (by omega : y % 10 < 10),
    toDig_dchar (by omega : m / 10 < 10), toDig_dchar (by omega : m % 10 < 10),
    toDig_dchar (by omega : d / 10 < 10), toDig_dchar (by omega : d % 10 < 10),
    toDig_dchar (by omega : hh / 10 < 10), toDig_dchar (by omega : hh % 10 < 10),
    toDig_dchar (by omega : mi / 10 < 10), toDig_dchar (by omega : mi % 10 < 10)]
  have h0 : toDig '0' = 0 := rfl
  have h9 : toDig '9' = 9 := rfl
  have hy : y / 1000 * 1000 + y / 100 % 10 * 100 + y / 10 % 10 * 10 + y % 10 = y := by omega
  have hm : m / 10 * 10 + m % 10 = m := by omega
  have hd : d / 10 * 10 + d % 10 = d := by omega
  have hhe : hh / 10 * 10 + hh % 10 = hh := by omega
  have hmie : mi / 10 * 10 + mi % 10 = mi := by omega
  simp only [h0, h9, hy, hm, hd, hhe, hmie]
  norm_num
  intro h
  exact absurd (h (by decide) (by decide)) (by decide)

lemma jsDateUtc_iso (y m d hh mi : Nat) (hy2 : y ≤ 9999)
    (hm1 : 1 ≤ m) (hm2 : m ≤ 12) (hd1 : 1 ≤ d) (hd2 : d ≤ daysInMonth (y : Int) m)
    (hh23 : hh ≤ 23) (hmi59 : mi ≤ 59) :
    jsDateUtc (parseJstToIso (renderDateS y m d) (renderTimeS hh mi)) =
      some (shiftMinutes ⟨(y : Int), m, d, hh, mi, 0⟩ (-540)) := by
  have hdm := daysInMonth_le (y : Int) m
  unfold jsDateUtc
  rw [jsParseCivil_iso y m d hh mi hy2 (by omega) (by omega) (by omega) (by omega)]
  dsimp only
  have hv : civilValid ⟨(y : Int), m, d, hh, mi, 0⟩ 540 = true := by
    unfold civilValid
    dsimp only
    simp only [Bool.and_eq_true, Bool.or_eq_true, decide_eq_true_eq, beq_iff_eq]
    omega
  have h24 : ((⟨(y : Int), m, d, hh, mi, 0⟩ : CivilDT).hour == 24) = false := by
    show (hh == 24) = false
    rw [beq_eq_false_iff_ne]
    omega
  simp only [hv, if_true, h24, Bool.false_eq_true, if_false]

/-! ## Tokenizer lemmas -/

lemma wsGo_mem_ne_nil : ∀ (l acc : List Char) (t : List Char), t ∈ wsGo l acc → t ≠ [] := by
  intro l
  induction l with
  | nil =>
    intro acc t ht
    unfold wsGo at ht
    by_cases h : acc = []
    · simp [h] at ht
    · simp [h] at ht
      subst ht
      simpa using h
  | cons c cs ih =>
    intro acc t ht
    unfold wsGo at ht
    by_cases hsp : c = ' '
    · simp only [if_pos hsp] at ht
      by_cases h : acc = []
      · exact ih [] t (by simpa [h] using ht)
      · simp only [if_neg h, List.mem_cons] at ht
        rcases ht with h1 | h2
        · subst h1; simpa using h
        · exact ih [] t h2
    · simp only [if_neg hsp] at ht
      exact ih (c :: acc) t (by simpa using ht)

lemma toks_mem_ne_empty (s : String) (t : String) (h : t ∈ toks s) : t ≠ "" := by
  unfold toks at h
  rcases List.mem_map.mp h with ⟨l, hl, rfl⟩
  have hnil := wsGo_mem_ne_nil s.toList [] l hl
  intro hc
  apply hnil
  have hdat : (String.mk l).data = ("" : String).data := by rw [hc]
  simpa using hdat

lemma data_append (a b : String) : (a ++ b).data = a.data ++ b.data := rfl

lemma joinWith_ne_empty (sep : String) (t0 : String) (ts : List String) (h : t0 ≠ "") :
    joinWith sep (t0 :: ts) ≠ "" := by
  have hd : t0.data ≠ [] := by
    intro hc
    exact h (String.ext hc)
  cases ts with
  | nil => simpa [joinWith] using h
  | cons t1 ts =>
    intro hc
    have hdat : (joinWith sep (t0 :: t1 :: ts)).data = [] := by rw [hc]
    rw [show joinWith sep (t0 :: t1 :: ts) = t0 ++ sep ++ joinWith sep (t1 :: ts) from rfl] at hdat
    rw [data_append, data_append] at hdat
    simp at hdat
    exact hd hdat.1

/-! ## Regex-match lemmas on rendered tokens -/

lemma matchDate_render (y m d : Nat) (hy : y ≤ 9999) (hm : m ≤ 99) (hd : d ≤ 99) :
    matchDate (renderDateS y m d) = true := by
  unfold matchDate renderDateS
  simp only [pad4, pad2, String.toList]
  simp only [List.cons_append, List.nil_append]
  simp [isDig_dchar (by omega : y / 1000 < 10), isDig_dchar (by omega : y / 100 % 10 < 10),
    isDig_dchar (by omega : y / 10 % 10 < 10), isDig_dchar (by omega : y % 10 < 10),
    isDig_dchar (by omega : m / 10 < 10), isDig_dchar (by omega : m % 10 < 10),
    isDig_dchar (by omega : d / 10 < 10), isDig_dchar (by omega : d % 10 < 10)]

lemma matchTime_render (h mi : Nat) (hh : h ≤ 99) (hmi : mi ≤ 99) :
    matchTime (renderTimeS h mi) = true := by
  unfold matchTime renderTimeS
  simp only [pad2, String.toList]
  simp only [List.cons_append, List.nil_append]
  simp [isDig_dchar (by omega : h / 10 < 10), isDig_dchar (by omega : h % 10 < 10),
    isDig_dchar (by omega : mi / 10 < 10), isDig_dchar (by omega : mi % 10 < 10)]


/-! ## Acceptance of rendered add arguments by parseAddArgs -/

lemma parseAddArgs_render (text : String) (y m d hh mi : Nat) (rest : List String)
    (htoks : toks text = renderDateS y m d :: renderTimeS hh mi :: rest)
    (hrest : rest ≠ [])
    (hy2 : y ≤ 9999) (hm2 : m ≤ 99) (hd2 : d ≤ 99) (hh23 : hh ≤ 23) (hmi59 : mi ≤ 59)
    (hm1v : 1 ≤ m) (hm2v : m ≤ 12) (hd1v : 1 ≤ d) (hdv : d ≤ daysInMonth (y : Int) m) :
    parseAddArgs text =
      some (parseJstToIso (renderDateS y m d) (renderTimeS hh mi), joinWith (" ") rest) := by
  obtain ⟨t0, ts, rfl⟩ : ∃ t0 ts, rest = t0 :: ts := by
    cases rest with
    | nil => exact absurd rfl hrest
    | cons a b => exact ⟨a, b, rfl⟩
  have ht0 : t0 ≠ "" := toks_mem_ne_empty text t0 (by rw [htoks]; simp)
  unfold parseAddArgs
  rw [htoks]
  dsimp only
  rw [if_neg (by simp : ¬ (t0 :: ts = []))]
  rw [if_neg (joinWith_ne_empty (" ") t0 ts ht0)]
  rw [matchDate_render y m d hy2 hm2 hd2, matchTime_render hh mi (by omega) (by omega)]
  simp only [Bool.not_true, Bool.false_eq_true, if_false]
  have htl : (renderTimeS hh mi).toList =
      [dchar (hh / 10), dchar (hh % 10), ':', dchar (mi / 10), dchar (mi % 10)] := by
    simp [renderTimeS, pad2, String.toList]
  rw [htl]
  simp only [toDig_dchar (by omega : hh / 10 < 10), toDig_dchar (by omega : hh % 10 < 10),
    toDig_dchar (by omega : mi / 10 < 10), toDig_dchar (by omega : mi % 10 < 10)]
  have ehh : hh / 10 * 10 + hh % 10 = hh := by omega
  have emi : mi / 10 * 10 + mi % 10 = mi := by omega
  simp only [ehh, emi]
  rw [if_neg (by omega : ¬ (23 < hh)), if_neg (by omega : ¬ (59 < mi))]
  have hiso : String.mk ((renderDateS y m d).toList ++ 'T' :: pad2 hh ++ ':' :: pad2 mi ++
      [':', '0', '0', '+', '0', '9', ':', '0', '0']) =
      parseJstToIso (renderDateS y m d) (renderTimeS hh mi) := rfl
  rw [hiso]
  rw [jsDateUtc_iso y m d hh mi hy2 hm1v hm2v hd1v hdv hh23 hmi59]
  simp

/-- C1, amended.  The claim as stated is false of the program: the add
command of part_001 validates only the two regexes, so it accepts
times like 24:00, which ECMAScript parses as the next day's midnight -
the stored instant's due key is "2026-01-13 00:00", never equal to
"2026-01-12 24:00" (see the counterexample, computed entirely within
the fixed-offset era where the model matches ICU exactly); dates
before 1952 additionally hit Asia/Tokyo tzdata history (LMT, the
1948-1951 DST summers, Julian rendering before 1582) under which the
rendered key also differs from "DATE TIME".  Amended claim: for every
DATE and TIME token accepted by the validating parser parseAddArgs
(hour 0-23, minute 0-59, calendar-valid date) with year 1952-9999 -
the era in which Asia/Tokyo is a constant +09:00 - the add command
stores exactly the instant parseJstToIso(DATE, TIME), and the
scheduler due key formatJst(parseJstToIso(DATE, TIME)) equals the
string "DATE TIME" character for character, so the event is due
exactly at the tick whose nowKey equals that string. -/
theorem c1_due_key_amended (text : String) (y m d hh mi : Nat) (rest : List String)
    (htoks : toks text = renderDateS y m d :: renderTimeS hh mi :: rest)
    (hrest : rest ≠ [])
    (hy1 : 1952 ≤ y) (hy2 : y ≤ 9999)
    (hm1 : 1 ≤ m) (hm2 : m ≤ 12) (hd1 : 1 ≤ d) (hd2 : d ≤ daysInMonth (y : Int) m)
    (hh23 : hh ≤ 23) (hmi59 : mi ≤ 59) :
    parseAddArgs text =
      some (parseJstToIso (renderDateS y m d) (renderTimeS hh mi), joinWith (" ") rest)
    ∧ formatJst (parseJstToIso (renderDateS y m d) (renderTimeS hh mi)) =
        some (renderDateS y m d ++ " " ++ renderTimeS hh mi) := by
  have hdm := daysInMonth_le (y : Int) m
  constructor
  · exact parseAddArgs_render text y m d hh mi rest htoks hrest hy2 (by omega) (by omega)
      hh23 hmi59 hm1 hm2 hd1 hd2
  · unfold formatJst
    rw [jsDateUtc_iso y m d hh mi hy2 hm1 hm2 hd1 hd2 hh23 hmi59]
    simp only [Option.map_some']
    rw [shift_roundtrip ⟨(y : Int), m, d, hh, mi, 0⟩ hm1 hm2 hd1 hd2 hh23 hmi59]
    rw [renderKey_eq y m d hh mi (by omega) hy2]

/-- Witness for c1_due_key_amended at the spec's Scenario A input. -/
theorem c1_witness :
    (toks ("2026-01-12 09:30 Standup") = renderDateS 2026 1 12 :: renderTimeS 9 30 :: ["Standup"])
    ∧ (parseAddArgs ("2026-01-12 09:30 Standup") =
        some (parseJstToIso (renderDateS 2026 1 12) (renderTimeS 9 30), joinWith (" ") ["Standup"])
      ∧ formatJst (parseJstToIso (renderDateS 2026 1 12) (renderTimeS 9 30)) =
          some (renderDateS 2026 1 12 ++ " " ++ renderTimeS 9 30)) :=
  ⟨by decide,
   c1_due_key_amended ("2026-01-12 09:30 Standup") 2026 1 12 9 30 ["Standup"] (by decide)
     (by decide) (by decide) (by decide) (by decide) (by decide) (by decide) (by decide)
     (by decide) (by decide)⟩

/-- Counterexample to C1 as stated: TIME 24:00 matches \d{2}:\d{2} and
is accepted by part_001's add command (the handler cited by the claim
checks only the regexes), which stores parseJstToIso(DATE, TIME); but
ECMAScript reads T24:00:00 as the following day's midnight, so the due
key is "2026-01-13 00:00", which differs from "2026-01-12 24:00" - the
event is never due at the tick whose nowKey is "DATE TIME" (nowKeyJst
renders midnight as hour 00, never 24).  The instant lies in the
fixed-offset era of Asia/Tokyo, where the rendering model matches
ICU. -/
theorem c1_counterexample :
    (handleEvent ("add 2026-01-12 24:00 x") []).store =
      [⟨Jid.num 1, "2026-01-12T24:00:00+09:00", "x", false⟩]
    ∧ (handleEvent ("add 2026-01-12 24:00 x") []).saves = 1
    ∧ formatJst (parseJstToIso ("2026-01-12") ("24:00")) = some ("2026-01-13 00:00")
    ∧ some ("2026-01-13 00:00") ≠ some ("2026-01-12 24:00") := by
  refine ⟨by decide, by decide, by decide, by decide⟩

/-! ## Tick characterization -/

lemma tickGo_eq (nowKey : String) (deliver : Nat → Bool) :
    ∀ (es : List Event) (calls : Nat) (changed : Bool),
      (∀ e ∈ es, e.notified = false → (formatJst e.isoJst).isSome = true) →
      tickGo nowKey deliver es calls changed =
        some (tickSpec nowKey deliver es calls, changed || anyDel nowKey deliver es calls) := by
  intro es
  induction es with
  | nil => intro calls changed _; simp [tickGo, tickSpec, anyDel]
  | cons e es ih =>
    intro calls changed hp
    have hpe : ∀ x ∈ es, x.notified = false → (formatJst x.isoJst).isSome = true := by
      intro x hx
      exact hp x (List.mem_cons_of_mem e hx)
    by_cases hn : e.notified
    · have hdue : dueB nowKey e = false := by simp [dueB, hn]
      rw [show tickGo nowKey deliver (e :: es) calls changed =
        (tickGo nowKey deliver es calls changed).map (fun r => (e :: r.1, r.2)) from by
          rw [tickGo, if_pos hn]]
      rw [ih calls changed hpe]
      rw [show tickSpec nowKey deliver (e :: es) calls =
        e :: tickSpec nowKey deliver es calls from by rw [tickSpec, if_neg (by simp [hdue])]]
      rw [show anyDel nowKey deliver (e :: es) calls =
        anyDel nowKey deliver es calls from by rw [anyDel, if_neg (by simp [hdue])]]
      rfl
    · have hs := hp e (List.mem_cons_self e es) (by simpa using hn)
      obtain ⟨ek, hek⟩ := Option.isSome_iff_exists.mp hs
      by_cases hkey : ek = nowKey
      · rw [hkey] at hek
        have hdue : dueB nowKey e = true := by
          simp [dueB, hn, hek]
        by_cases hdel : deliver calls
        · rw [show tickGo nowKey deliver (e :: es) calls changed =
            (tickGo nowKey deliver es (calls + 1) true).map (fun r => (markE e :: r.1, r.2)) from by
              rw [tickGo, if_neg hn, hek]
              simp [hdel]]
          rw [ih (calls + 1) true hpe]
          rw [show tickSpec nowKey deliver (e :: es) calls =
            markE e :: tickSpec nowKey deliver es (calls + 1) from by
              rw [tickSpec, if_pos hdue, if_pos hdel]]
          rw [show anyDel nowKey deliver (e :: es) calls =
            (deliver calls || anyDel nowKey deliver es (calls + 1)) from by
              rw [anyDel, if_pos hdue]]
          simp [hdel]
        · rw [show tickGo nowKey deliver (e :: es) calls changed =
            (tickGo nowKey deliver es (calls + 1) changed).map (fun r => (e :: r.1, r.2)) from by
              rw [tickGo, if_neg hn, hek]
              simp [hdel]]
          rw [ih (calls + 1) changed hpe]
          rw [show tickSpec nowKey deliver (e :: es) calls =
            e :: tickSpec nowKey deliver es (calls + 1) from by
              rw [tickSpec, if_pos hdue]
              simp [hdel]]
          rw [show anyDel nowKey deliver (e :: es) calls =
            (deliver calls || anyDel nowKey deliver es (calls + 1)) from by
              rw [anyDel, if_pos hdue]]
          simp [hdel]
      · have hdue : dueB nowKey e = false := by
          simp [dueB, hn, hek]
          exact hkey
        rw [show tickGo nowKey deliver (e :: es) calls changed =
          (tickGo nowKey deliver es calls changed).map (fun r => (e :: r.1, r.2)) from by
            rw [tickGo, if_neg hn, hek]
            simp [hkey]]
        rw [ih calls changed hpe]
        rw [show tickSpec nowKey deliver (e :: es) calls =
          e :: tickSpec nowKey deliver es calls from by rw [tickSpec, if_neg (by simp [hdue])]]
        rw [show anyDel nowKey deliver (e :: es) calls =
          anyDel nowKey deliver es calls from by rw [anyDel, if_neg (by simp [hdue])]]
        rfl



lemma tickSpec_true (nowKey : String) :
    ∀ (es : List Event) (calls : Nat),
      tickSpec nowKey (fun _ => true) es calls =
        es.map (fun e => if dueB nowKey e then markE e else e) := by
  intro es
  induction es with
  | nil => intro calls; rfl
  | cons e es ih =>
    intro calls
    by_cases h : dueB nowKey e
    · rw [tickSpec, if_pos h]
      simp [h, ih]
    · rw [tickSpec, if_neg h]
      simp [h, ih (calls + 1)]
      exact ih calls

lemma anyDel_true (nowKey : String) :
    ∀ (es : List Event) (calls : Nat),
      anyDel nowKey (fun _ => true) es calls = es.any (dueB nowKey) := by
  intro es
  induction es with
  | nil => intro calls; rfl
  | cons e es ih =>
    intro calls
    by_cases h : dueB nowKey e
    · rw [anyDel, if_pos h]
      simp [h]
    · rw [anyDel, if_neg h]
      simp [h, ih calls]

/-- C2: in a tick in which delivery succeeds for every due record
(deliver constantly true), every record with notified false whose due
key equals nowKey is marked notified, all other records are unchanged,
and the store is persisted exactly once for the whole tick when
anything changed and zero times when nothing was due: a single save
batches all of that tick's updates (two records sharing the due key are
both marked via the one save, see the witness). -/
theorem c2_tick_single_save (nowKey : String) (events : List Event)
    (hp : ∀ e ∈ events, e.notified = false → (formatJst e.isoJst).isSome = true) :
    tickStore nowKey (fun _ => true) events =
      events.map (fun e => if dueB nowKey e then markE e else e)
    ∧ tickSaves nowKey (fun _ => true) events =
        (if events.any (dueB nowKey) then 1 else 0) := by
  unfold tickStore tickSaves tickRun
  rw [tickGo_eq nowKey (fun _ => true) events 0 false hp]
  rw [tickSpec_true nowKey events 0, anyDel_true nowKey events 0]
  simp



lemma tickSpec_length (nowKey : String) (deliver : Nat → Bool) :
    ∀ (es : List Event) (calls : Nat), (tickSpec nowKey deliver es calls).length = es.length := by
  intro es
  induction es with
  | nil => intro calls; rfl
  | cons e es ih =>
    intro calls
    by_cases h : dueB nowKey e
    · rw [tickSpec, if_pos h]
      simp [ih (calls + 1)]
    · rw [tickSpec, if_neg h]
      simp [ih calls]

lemma callsBefore_zero (nowKey : String) (events : List Event) : callsBefore nowKey events 0 = 0 := rfl

lemma callsBefore_succ (nowKey : String) (e : Event) (es : List Event) (i : Nat) :
    callsBefore nowKey (e :: es) (i + 1) =
      (if dueB nowKey e then 1 else 0) + callsBefore nowKey es i := by
  unfold callsBefore
  by_cases h : dueB nowKey e
  · simp [List.take, List.filter, h]
    omega
  · simp [List.take, List.filter, h]

lemma tickSpec_get (nowKey : String) (deliver : Nat → Bool) :
    ∀ (es : List Event) (calls i : Nat) (h : i < es.length)
      (h' : i < (tickSpec nowKey deliver es calls).length),
      (tickSpec nowKey deliver es calls).get ⟨i, h'⟩ =
        (if dueB nowKey (es.get ⟨i, h⟩) ∧
            deliver (calls + callsBefore nowKey es i) = true
         then markE (es.get ⟨i, h⟩) else es.get ⟨i, h⟩) := by
  intro es
  induction es with
  | nil => intro calls i h h'; exact absurd h (by simp)
  | cons e es ih =>
    intro calls i h h'
    cases i with
    | zero =>
      rw [callsBefore_zero]
      by_cases hd : dueB nowKey e
      · have he : tickSpec nowKey deliver (e :: es) calls =
            (if deliver calls = true then markE e else e) :: tickSpec nowKey deliver es (calls + 1) := by
          rw [tickSpec, if_pos hd]
        rw [List.get_of_eq he ⟨0, h'⟩]
        by_cases hdel : deliver calls
        · simp [hd, hdel]
        · simp [hd, hdel]
      · have he : tickSpec nowKey deliver (e :: es) calls =
            e :: tickSpec nowKey deliver es calls := by
          rw [tickSpec, if_neg hd]
        rw [List.get_of_eq he ⟨0, h'⟩]
        simp [hd]
    | succ i =>
      rw [callsBefore_succ]
      have h2 : i < es.length := by simpa using h
      by_cases hd : dueB nowKey e
      · have he : tickSpec nowKey deliver (e :: es) calls =
            (if deliver calls = true then markE e else e) :: tickSpec nowKey deliver es (calls + 1) := by
          rw [tickSpec, if_pos hd]
        rw [List.get_of_eq he ⟨i + 1, h'⟩]
        have h2' : i < (tickSpec nowKey deliver es (calls + 1)).length := by
          rw [tickSpec_length]; exact h2
        have hs : ((if deliver calls = true then markE e else e) ::
            tickSpec nowKey deliver es (calls + 1)).get ⟨i + 1, by simpa using h2'⟩ =
            (tickSpec nowKey deliver es (calls + 1)).get ⟨i, h2'⟩ := by
          simp
        rw [hs, ih (calls + 1) i h2 h2']
        have harith : calls + 1 + callsBefore nowKey es i = calls + (1 + callsBefore nowKey es i) := by
          omega
        simp [hd, harith]
      · have he : tickSpec nowKey deliver (e :: es) calls =
            e :: tickSpec nowKey deliver es calls := by
          rw [tickSpec, if_neg hd]
        rw [List.get_of_eq he ⟨i + 1, h'⟩]
        have h2' : i < (tickSpec nowKey deliver es calls).length := by
          rw [tickSpec_length]; exact h2
        have hs : (e :: tickSpec nowKey deliver es calls).get ⟨i + 1, by simpa using h2'⟩ =
            (tickSpec nowKey deliver es calls).get ⟨i, h2'⟩ := by
          simp
        rw [hs, ih calls i h2 h2']
        simp [hd]

/-- C9: with an arbitrary per-call delivery outcome, the tick always
completes (the failure does not terminate the scheduler loop), walks
every record, and the i-th record is marked if and only if it is due
and its own delivery call succeeded: a failed delivery leaves that
record's notified flag false while the remaining due records are still
attempted and, on success, marked. -/
theorem c9_failure_isolated (nowKey : String) (deliver : Nat → Bool) (events : List Event)
    (hp : ∀ e ∈ events, e.notified = false → (formatJst e.isoJst).isSome = true) :
    (tickRun nowKey deliver events).isSome = true
    ∧ (tickStore nowKey deliver events).length = events.length
    ∧ ∀ (i : Nat) (hi : i < events.length)
        (hi' : i < (tickStore nowKey deliver events).length),
        (tickStore nowKey deliver events).get ⟨i, hi'⟩ =
          (if dueB nowKey (events.get ⟨i, hi⟩) ∧
              deliver (callsBefore nowKey events i) = true
           then markE (events.get ⟨i, hi⟩) else events.get ⟨i, hi⟩) := by
  have hrun := tickGo_eq nowKey deliver events 0 false hp
  have hst : tickStore nowKey deliver events = tickSpec nowKey deliver events 0 := by
    unfold tickStore tickRun
    rw [hrun]
  refine ⟨?_, ?_, ?_⟩
  · unfold tickRun
    rw [hrun]
    rfl
  · rw [hst, tickSpec_length]
  · intro i hi hi'
    have hi2 : i < (tickSpec nowKey deliver events 0).length := by
      rw [tickSpec_length]; exact hi
    have := tickSpec_get nowKey deliver events 0 i hi hi2
    simp only [Nat.zero_add] at this
    rw [List.get_of_eq hst ⟨i, hi'⟩]
    exact this

/-- Witness for c2_tick_single_save: Scenario E, two records sharing
the due key, both marked by one tick with one save. -/
theorem c2_witness :
    (∀ e ∈ ([⟨Jid.num 1, "2026-01-12T09:30:00+09:00", "a", false⟩,
             ⟨Jid.num 2, "2026-01-12T09:30:00+09:00", "b", false⟩] : List Event),
        e.notified = false → (formatJst e.isoJst).isSome = true)
    ∧ (tickStore ("2026-01-12 09:30") (fun _ => true)
          [⟨Jid.num 1, "2026-01-12T09:30:00+09:00", "a", false⟩,
           ⟨Jid.num 2, "2026-01-12T09:30:00+09:00", "b", false⟩] =
        ([⟨Jid.num 1, "2026-01-12T09:30:00+09:00", "a", false⟩,
          ⟨Jid.num 2, "2026-01-12T09:30:00+09:00", "b", false⟩] : List Event).map
          (fun e => if dueB ("2026-01-12 09:30") e then markE e else e)
      ∧ tickSaves ("2026-01-12 09:30") (fun _ => true)
          [⟨Jid.num 1, "2026-01-12T09:30:00+09:00", "a", false⟩,
           ⟨Jid.num 2, "2026-01-12T09:30:00+09:00", "b", false⟩] =
          (if ([⟨Jid.num 1, "2026-01-12T09:30:00+09:00", "a", false⟩,
                ⟨Jid.num 2, "2026-01-12T09:30:00+09:00", "b", false⟩] : List Event).any
              (dueB ("2026-01-12 09:30")) then 1 else 0)) :=
  ⟨by decide,
   c2_tick_single_save ("2026-01-12 09:30")
     [⟨Jid.num 1, "2026-01-12T09:30:00+09:00", "a", false⟩,
      ⟨Jid.num 2, "2026-01-12T09:30:00+09:00", "b", false⟩] (by decide)⟩

/-- Witness for c9_failure_isolated: the first delivery call fails and
the second succeeds, so the first due record stays unnotified while the
second is still marked. -/
theorem c9_witness :
    (∀ e ∈ ([⟨Jid.num 1, "2026-01-12T09:30:00+09:00", "a", false⟩,
             ⟨Jid.num 2, "2026-01-12T09:30:00+09:00", "b", false⟩] : List Event),
        e.notified = false → (formatJst e.isoJst).isSome = true)
    ∧ ((tickRun ("2026-01-12 09:30") (fun n => n == 1)
          [⟨Jid.num 1, "2026-01-12T09:30:00+09:00", "a", false⟩,
           ⟨Jid.num 2, "2026-01-12T09:30:00+09:00", "b", false⟩]).isSome = true
      ∧ (tickStore ("2026-01-12 09:30") (fun n => n == 1)
          [⟨Jid.num 1, "2026-01-12T09:30:00+09:00", "a", false⟩,
           ⟨Jid.num 2, "2026-01-12T09:30:00+09:00", "b", false⟩]).length =
          ([⟨Jid.num 1, "2026-01-12T09:30:00+09:00", "a", false⟩,
            ⟨Jid.num 2, "2026-01-12T09:30:00+09:00", "b", false⟩] : List Event).length
      ∧ ∀ (i : Nat)
          (hi : i < ([⟨Jid.num 1, "2026-01-12T09:30:00+09:00", "a", false⟩,
                      ⟨Jid.num 2, "2026-01-12T09:30:00+09:00", "b", false⟩] : List Event).length)
          (hi' : i < (tickStore ("2026-01-12 09:30") (fun n => n == 1)
            [⟨Jid.num 1, "2026-01-12T09:30:00+09:00", "a", false⟩,
             ⟨Jid.num 2, "2026-01-12T09:30:00+09:00", "b", false⟩]).length),
          (tickStore ("2026-01-12 09:30") (fun n => n == 1)
            [⟨Jid.num 1, "2026-01-12T09:30:00+09:00", "a", false⟩,
             ⟨Jid.num 2, "2026-01-12T09:30:00+09:00", "b", false⟩]).get ⟨i, hi'⟩ =
            (if dueB ("2026-01-12 09:30")
                (([⟨Jid.num 1, "2026-01-12T09:30:00+09:00", "a", false⟩,
                   ⟨Jid.num 2, "2026-01-12T09:30:00+09:00", "b", false⟩] : List Event).get ⟨i, hi⟩) ∧
                (fun n => n == 1) (callsBefore ("2026-01-12 09:30")
                  [⟨Jid.num 1, "2026-01-12T09:30:00+09:00", "a", false⟩,
                   ⟨Jid.num 2, "2026-01-12T09:30:00+09:00", "b", false⟩] i) = true
             then markE (([⟨Jid.num 1, "2026-01-12T09:30:00+09:00", "a", false⟩,
                   ⟨Jid.num 2, "2026-01-12T09:30:00+09:00", "b", false⟩] : List Event).get ⟨i, hi⟩)
             else ([⟨Jid.num 1, "2026-01-12T09:30:00+09:00", "a", false⟩,
                   ⟨Jid.num 2, "2026-01-12T09:30:00+09:00", "b", false⟩] : List Event).get ⟨i, hi⟩)) :=
  ⟨by decide,
   c9_failure_isolated ("2026-01-12 09:30") (fun n => n == 1)
     [⟨Jid.num 1, "2026-01-12T09:30:00+09:00", "a", false⟩,
      ⟨Jid.num 2, "2026-01-12T09:30:00+09:00", "b", false⟩] (by decide)⟩

/-! ## Monotonicity of the notified flag -/

lemma handleTokens_keep (tokens : List String) (s : List Event) (e : Event) (hm : e ∈ s) :
    e ∈ (handleTokens tokens s).store ∨
      (∃ sub idt rest n, tokens = sub :: idt :: rest ∧ (sub = "remove" ∨ sub = "delete") ∧
        jsNumStr idt = some n ∧ jidNum e.id = some n) := by
  match tokens with
  | [] => exact Or.inl hm
  | sub :: rest =>
    unfold handleTokens
    dsimp only
    by_cases hadd : sub = "add"
    · rw [if_pos hadd]
      match rest with
      | dateStr :: timeStr :: t0 :: ts =>
        dsimp only
        split
        · exact Or.inl hm
        · cases hfmt : formatJst (parseJstToIso dateStr timeStr) <;>
            simp only [hfmt] <;> exact Or.inl (List.mem_append_left _ hm)
      | [] => exact Or.inl hm
      | [a] => exact Or.inl hm
      | [a, b] => exact Or.inl hm
    · rw [if_neg hadd]
      by_cases hlist : sub = "list"
      · rw [if_pos hlist]
        split
        · exact Or.inl hm
        · split <;> exact Or.inl hm
      · rw [if_neg hlist]
        by_cases hrem : sub = "remove" ∨ sub = "delete"
        · rw [if_pos hrem]
          match rest with
          | [] => exact Or.inl hm
          | idt :: rest' =>
            dsimp only
            cases hnum : jsNumStr idt with
            | none => exact Or.inl hm
            | some id =>
              by_cases hid : jidNum e.id = some id
              · exact Or.inr ⟨sub, idt, rest', id, rfl, hrem, hnum, hid⟩
              · refine Or.inl (List.mem_filter.mpr ⟨hm, ?_⟩)
                simp [hid]
        · rw [if_neg hrem]
          exact Or.inl hm



lemma tickGo_keep (nowKey : String) (deliver : Nat → Bool) :
    ∀ (es : List Event) (calls : Nat) (changed : Bool) (out : List Event) (c : Bool),
      tickGo nowKey deliver es calls changed = some (out, c) →
      ∀ e ∈ es, e.notified = true → e ∈ out := by
  intro es
  induction es with
  | nil =>
    intro calls changed out c heq e hme
    simp at hme
  | cons a es ih =>
    intro calls changed out c heq e hme hnot
    rw [tickGo] at heq
    rcases List.mem_cons.mp hme with rfl | hme'
    · rw [if_pos hnot] at heq
      rcases Option.map_eq_some'.mp heq with ⟨r, hr, hout⟩
      injection hout with h1 h2
      rw [← h1]
      exact List.mem_cons_self _ _
    · by_cases hn : a.notified
      · rw [if_pos hn] at heq
        rcases Option.map_eq_some'.mp heq with ⟨r, hr, hout⟩
        injection hout with h1 h2
        rw [← h1]
        exact List.mem_cons_of_mem _ (ih calls changed r.1 r.2 (by rw [hr]) e hme' hnot)
      · rw [if_neg hn] at heq
        cases hfmt : formatJst a.isoJst with
        | none => rw [hfmt] at heq; exact absurd heq (by simp)
        | some ek =>
          rw [hfmt] at heq
          simp only [] at heq
          by_cases hkey : ek = nowKey
          · rw [if_pos hkey] at heq
            by_cases hdel : deliver calls
            · rw [if_pos hdel] at heq
              rcases Option.map_eq_some'.mp heq with ⟨r, hr, hout⟩
              injection hout with h1 h2
              rw [← h1]
              exact List.mem_cons_of_mem _ (ih (calls + 1) true r.1 r.2 (by rw [hr]) e hme' hnot)
            · rw [if_neg hdel] at heq
              rcases Option.map_eq_some'.mp heq with ⟨r, hr, hout⟩
              injection hout with h1 h2
              rw [← h1]
              exact List.mem_cons_of_mem _
                (ih (calls + 1) changed r.1 r.2 (by rw [hr]) e hme' hnot)
          · rw [if_neg hkey] at heq
            rcases Option.map_eq_some'.mp heq with ⟨r, hr, hout⟩
            injection hout with h1 h2
            rw [← h1]
            exact List.mem_cons_of_mem _ (ih calls changed r.1 r.2 (by rw [hr]) e hme' hnot)

lemma tickGo_mem (nowKey : String) (deliver : Nat → Bool) :
    ∀ (es : List Event) (calls : Nat) (changed : Bool) (out : List Event) (c : Bool),
      tickGo nowKey deliver es calls changed = some (out, c) →
      ∀ e' ∈ out, e' ∈ es ∨
        ∃ e ∈ es, e.notified = false ∧ e' = markE e ∧
          formatJst e.isoJst = some nowKey ∧ ∃ n, deliver n = true := by
  intro es
  induction es with
  | nil =>
    intro calls changed out c heq e' hme
    rw [tickGo] at heq
    simp at heq
    rw [heq.1] at hme
    simp at hme
  | cons a es ih =>
    intro calls changed out c heq e' hme
    rw [tickGo] at heq
    by_cases hn : a.notified
    · rw [if_pos hn] at heq
      rcases Option.map_eq_some'.mp heq with ⟨r, hr, hout⟩
      injection hout with h1 h2
      rw [← h1] at hme
      rcases List.mem_cons.mp hme with rfl | hme'
      · exact Or.inl (List.mem_cons_self _ _)
      · rcases ih calls changed r.1 r.2 (by rw [hr]) e' hme' with h | ⟨e, he, hrest⟩
        · exact Or.inl (List.mem_cons_of_mem _ h)
        · exact Or.inr ⟨e, List.mem_cons_of_mem _ he, hrest⟩
    · rw [if_neg hn] at heq
      cases hfmt : formatJst a.isoJst with
      | none => rw [hfmt] at heq; exact absurd heq (by simp)
      | some ek =>
        rw [hfmt] at heq
        simp only [] at heq
        by_cases hkey : ek = nowKey
        · rw [if_pos hkey] at heq
          by_cases hdel : deliver calls
          · rw [if_pos hdel] at heq
            rcases Option.map_eq_some'.mp heq with ⟨r, hr, hout⟩
            injection hout with h1 h2
            rw [← h1] at hme
            rcases List.mem_cons.mp hme with rfl | hme'
            · refine Or.inr ⟨a, List.mem_cons_self _ _, by simpa using hn, rfl, ?_, calls, hdel⟩
              rw [hfmt, hkey]
            · rcases ih (calls + 1) true r.1 r.2 (by rw [hr]) e' hme' with h | ⟨e, he, hrest⟩
              · exact Or.inl (List.mem_cons_of_mem _ h)
              · exact Or.inr ⟨e, List.mem_cons_of_mem _ he, hrest⟩
          · rw [if_neg hdel] at heq
            rcases Option.map_eq_some'.mp heq with ⟨r, hr, hout⟩
            injection hout with h1 h2
            rw [← h1] at hme
            rcases List.mem_cons.mp hme with rfl | hme'
            · exact Or.inl (List.mem_cons_self _ _)
            · rcases ih (calls + 1) changed r.1 r.2 (by rw [hr]) e' hme' with h | ⟨e, he, hrest⟩
              · exact Or.inl (List.mem_cons_of_mem _ h)
              · exact Or.inr ⟨e, List.mem_cons_of_mem _ he, hrest⟩
        · rw [if_neg hkey] at heq
          rcases Option.map_eq_some'.mp heq with ⟨r, hr, hout⟩
          injection hout with h1 h2
          rw [← h1] at hme
          rcases List.mem_cons.mp hme with rfl | hme'
          · exact Or.inl (List.mem_cons_self _ _)
          · rcases ih calls changed r.1 r.2 (by rw [hr]) e' hme' with h | ⟨e, he, hrest⟩
            · exact Or.inl (List.mem_cons_of_mem _ h)
            · exact Or.inr ⟨e, List.mem_cons_of_mem _ he, hrest⟩



lemma handleTokens_true_mem (tokens : List String) (s : List Event) (e' : Event)
    (hm : e' ∈ (handleTokens tokens s).store) (hn : e'.notified = true) : e' ∈ s := by
  match tokens with
  | [] => exact hm
  | sub :: rest =>
    unfold handleTokens at hm
    dsimp only at hm
    by_cases hadd : sub = "add"
    · rw [if_pos hadd] at hm
      match rest with
      | dateStr :: timeStr :: t0 :: ts =>
        dsimp only at hm
        split at hm
        · exact hm
        · split at hm <;>
          · rcases List.mem_append.mp hm with h | h
            · exact h
            · simp at h
              rw [h] at hn
              simp at hn
      | [] => exact hm
      | [a] => exact hm
      | [a, b] => exact hm
    · rw [if_neg hadd] at hm
      by_cases hlist : sub = "list"
      · rw [if_pos hlist] at hm
        split at hm
        · exact hm
        · split at hm <;> exact hm
      · rw [if_neg hlist] at hm
        by_cases hrem : sub = "remove" ∨ sub = "delete"
        · rw [if_pos hrem] at hm
          match rest with
          | [] => exact hm
          | idt :: rest' =>
            dsimp only at hm
            cases hnum : jsNumStr idt with
            | none => rw [hnum] at hm; exact hm
            | some id =>
              rw [hnum] at hm
              simp only [] at hm
              exact List.mem_of_mem_filter hm
        · rw [if_neg hrem] at hm
          exact hm



lemma applyOp_keep (op : Op) (s : List Event) (e : Event) (hm : e ∈ s) (hn : e.notified = true) :
    e ∈ applyOp s op ∨ removesOp op e := by
  cases op with
  | cmd t =>
    rcases handleTokens_keep (toks t) s e hm with h | ⟨sub, idt, rest, n, htoks, hsub, hnum, hid⟩
    · exact Or.inl h
    · right
      unfold removesOp
      dsimp only
      rw [htoks]
      exact ⟨hsub, n, hnum, hid⟩
  | tk nk dv =>
    left
    show e ∈ tickStore nk dv s
    unfold tickStore
    cases hrun : tickRun nk dv s with
    | none => exact hm
    | some r =>
      cases r with
      | mk out c =>
        exact tickGo_keep nk dv s 0 false out c hrun e hm hn

lemma applyOps_keep : ∀ (ops : List Op) (s : List Event) (e : Event), e ∈ s →
    e.notified = true → e ∈ applyOps s ops ∨ ∃ op ∈ ops, removesOp op e := by
  intro ops
  induction ops with
  | nil => intro s e hm _; exact Or.inl hm
  | cons op ops ih =>
    intro s e hm hn
    rcases applyOp_keep op s e hm hn with h | h
    · rcases ih (applyOp s op) e h hn with h2 | ⟨op2, hop2, hr⟩
      · exact Or.inl h2
      · exact Or.inr ⟨op2, List.mem_cons_of_mem _ hop2, hr⟩
    · exact Or.inr ⟨op, List.mem_cons_self _ _, h⟩

lemma applyOp_true_mem (op : Op) (s : List Event) (e' : Event)
    (hm : e' ∈ applyOp s op) (hn : e'.notified = true) :
    e' ∈ s ∨ ∃ e ∈ s, e.notified = false ∧ e' = markE e ∧
      ∃ nk dv, op = Op.tk nk dv ∧ formatJst e.isoJst = some nk ∧ ∃ n, dv n = true := by
  cases op with
  | cmd t => exact Or.inl (handleTokens_true_mem (toks t) s e' hm hn)
  | tk nk dv =>
    revert hm
    show e' ∈ tickStore nk dv s → _
    unfold tickStore
    cases hrun : tickRun nk dv s with
    | none => exact fun hm => Or.inl hm
    | some r =>
      cases r with
      | mk out c =>
        intro hm
        rcases tickGo_mem nk dv s 0 false out c hrun e' hm with h | ⟨e, he, h1, h2, h3, h4⟩
        · exact Or.inl h
        · exact Or.inr ⟨e, he, h1, h2, nk, dv, rfl, h3, h4⟩

/-- C3: the notified flag is monotonic.  First conjunct: across any
sequence of command invocations and scheduler ticks, a record whose
notified flag is true stays in the store as the very same record
(flag included) unless some remove/delete command targeting its numeric
id removes it; it is never modified, so the flag is never reset.
Second conjunct: any record with notified true after one operation
either already was in the store unchanged, or arose by marking an
unnotified record during a tick whose nowKey equals the record's due
key and for which a delivery call succeeded - notified transitions only
false to true, and only on a successful delivery during a tick. -/
theorem c3_notified_monotonic :
    (∀ (ops : List Op) (s : List Event) (e : Event), e ∈ s → e.notified = true →
        e ∈ applyOps s ops ∨ ∃ op ∈ ops, removesOp op e)
    ∧ (∀ (op : Op) (s : List Event) (e' : Event), e' ∈ applyOp s op → e'.notified = true →
        e' ∈ s ∨ ∃ e ∈ s, e.notified = false ∧ e' = markE e ∧
          ∃ nk dv, op = Op.tk nk dv ∧ formatJst e.isoJst = some nk ∧ ∃ n, dv n = true) :=
  ⟨applyOps_keep, applyOp_true_mem⟩

/-- Witness for c3_notified_monotonic: a notified record survives a
list command. -/
theorem c3_witness :
    ((⟨Jid.num 1, "2026-01-12T09:30:00+09:00", "a", true⟩ : Event) ∈
        ([⟨Jid.num 1, "2026-01-12T09:30:00+09:00", "a", true⟩] : List Event))
    ∧ ((⟨Jid.num 1, "2026-01-12T09:30:00+09:00", "a", true⟩ : Event) ∈
        applyOps [⟨Jid.num 1, "2026-01-12T09:30:00+09:00", "a", true⟩] [Op.cmd ("list")]
      ∨ ∃ op ∈ [Op.cmd ("list")],
          removesOp op ⟨Jid.num 1, "2026-01-12T09:30:00+09:00", "a", true⟩) :=
  ⟨by decide,
   c3_notified_monotonic.1 [Op.cmd ("list")] [⟨Jid.num 1, "2026-01-12T09:30:00+09:00", "a", true⟩]
     ⟨Jid.num 1, "2026-01-12T09:30:00+09:00", "a", true⟩ (by decide) (by decide)⟩

/-! ## Remove, del and add validation -/

/-- C4, amended.  The claim as stated is false for part_001's remove
handler, which calls saveEvents unconditionally (see the
counterexample: one save is performed on a miss).  Amended claim: for a
remove/del whose integer ID matches no record, both handlers reply with
the not-found message and leave the store contents byte-for-byte
unchanged; the variant-3 del handler performs no save, while the
part_001 remove handler writes the unchanged collection back (one
save). -/
theorem c4_remove_missing_unchanged (id : Int) (idt : String) (events : List Event)
    (hid : jsNumStr idt = some id)
    (h : ∀ e ∈ events, jidNum e.id ≠ some id) :
    handleTokens (["remove", idt]) events = ⟨events, 1, some (notFoundMsg id)⟩
    ∧ delV3Run [idt] events = ⟨events, 0, some (delNotFoundV3 id)⟩ := by
  constructor
  · unfold handleTokens
    dsimp only
    rw [if_neg (by decide : ¬ ("remove" : String) = "add"),
      if_neg (by decide : ¬ ("remove" : String) = "list"),
      if_pos (Or.inl rfl : ("remove" : String) = "remove" ∨ ("remove" : String) = "delete")]
    rw [hid]
    dsimp only
    have hfil : events.filter (fun e => !(jidNum e.id == some id)) = events := by
      rw [List.filter_eq_self]
      intro e hme
      simp [h e hme]
    rw [hfil]
    simp
  · unfold delV3Run
    dsimp only
    rw [hid]
    dsimp only
    have hfil : events.filter (fun e => !(e.id == Jid.num id)) = events := by
      rw [List.filter_eq_self]
      intro e hme
      have : e.id ≠ Jid.num id := by
        intro hc
        exact h e hme (by rw [hc]; rfl)
      simp [this]
    rw [hfil]
    simp

/-- Witness for c4_remove_missing_unchanged: removing id 999 from a
store holding only id 1. -/
theorem c4_witness :
    (jsNumStr ("999") = some 999
      ∧ ∀ e ∈ ([⟨Jid.num 1, "2026-01-12T09:30:00+09:00", "Standup", false⟩] : List Event),
          jidNum e.id ≠ some 999)
    ∧ (handleTokens (["remove", "999"])
          [⟨Jid.num 1, "2026-01-12T09:30:00+09:00", "Standup", false⟩] =
        ⟨[⟨Jid.num 1, "2026-01-12T09:30:00+09:00", "Standup", false⟩], 1, some (notFoundMsg 999)⟩
      ∧ delV3Run ["999"] [⟨Jid.num 1, "2026-01-12T09:30:00+09:00", "Standup", false⟩] =
        ⟨[⟨Jid.num 1, "2026-01-12T09:30:00+09:00", "Standup", false⟩], 0,
         some (delNotFoundV3 999)⟩) :=
  ⟨⟨by decide, by decide⟩,
   c4_remove_missing_unchanged 999 ("999") [⟨Jid.num 1, "2026-01-12T09:30:00+09:00", "Standup", false⟩]
     (by decide) (by decide)⟩

/-- Counterexample to C4 as stated: part_001's remove of the missing id
999 performs one save (the claim requires zero), though the content is
unchanged and the reply is the not-found message. -/
theorem c4_counterexample :
    (handleEvent ("remove 999") [⟨Jid.num 1, "2026-01-12T09:30:00+09:00", "Standup", false⟩]).saves
      = 1
    ∧ (handleEvent ("remove 999")
        [⟨Jid.num 1, "2026-01-12T09:30:00+09:00", "Standup", false⟩]).store =
        [⟨Jid.num 1, "2026-01-12T09:30:00+09:00", "Standup", false⟩]
    ∧ (handleEvent ("remove 999")
        [⟨Jid.num 1, "2026-01-12T09:30:00+09:00", "Standup", false⟩]).reply =
        some (notFoundMsg 999) := by
  refine ⟨by decide, by decide, by decide⟩



/-- C5, amended.  The claim as stated is false for part_001's add
handler, whose only validation is the two regexes: add 2026-01-12 25:99
x appends a record and saves (see the counterexample).  Amended claim:
in the variant with the validating parser, a TIME matching the regex
with hour outside 0-23 or minute outside 0-59 makes parseAddArgs return
none, and the add branch then replies with the usage message and
performs no mutation and no save. -/
theorem c5_add_range_rejected_amended :
    (∀ (text dateS : String) (hh mi : Nat) (rest : List String),
        toks text = dateS :: renderTimeS hh mi :: rest → hh ≤ 99 → mi ≤ 99 →
        (23 < hh ∨ 59 < mi) → parseAddArgs text = none)
    ∧ (∀ (hostOff : Int) (t : String) (events : List Event), parseAddArgs t = none →
        addV3 hostOff t events = ⟨events, 0, some addUsageV3⟩) := by
  constructor
  · intro text dateS hh mi rest htoks hh99 hmi99 hbad
    unfold parseAddArgs
    rw [htoks]
    dsimp only
    by_cases h1 : rest = []
    · rw [if_pos h1]
    · rw [if_neg h1]
      by_cases h2 : joinWith (" ") rest = ""
      · rw [if_pos h2]
      · rw [if_neg h2]
        by_cases h3 : matchDate dateS
        · simp only [h3, Bool.not_true, Bool.false_eq_true, if_false]
          rw [matchTime_render hh mi hh99 hmi99]
          simp only [Bool.not_true, Bool.false_eq_true, if_false]
          have htl : (renderTimeS hh mi).toList =
              [dchar (hh / 10), dchar (hh % 10), ':', dchar (mi / 10), dchar (mi % 10)] := by
            simp [renderTimeS, pad2, String.toList]
          rw [htl]
          simp only [toDig_dchar (by omega : hh / 10 < 10), toDig_dchar (by omega : hh % 10 < 10),
            toDig_dchar (by omega : mi / 10 < 10), toDig_dchar (by omega : mi % 10 < 10)]
          have ehh : hh / 10 * 10 + hh % 10 = hh := by omega
          have emi : mi / 10 * 10 + mi % 10 = mi := by omega
          simp only [ehh, emi]
          rcases hbad with hb | hb
          · rw [if_pos hb]
          · by_cases hh23 : 23 < hh
            · rw [if_pos hh23]
            · rw [if_neg hh23, if_pos hb]
        · have hneg : (!matchDate dateS) = true := by simp [h3]
          rw [if_pos hneg]
  · intro hostOff t events hp
    unfold addV3
    rw [hp]

/-- Witness for c5_add_range_rejected_amended at the input
2026-01-12 25:99 x. -/
theorem c5_witness :
    (toks ("2026-01-12 25:99 x") = "2026-01-12" :: renderTimeS 25 99 :: ["x"])
    ∧ parseAddArgs ("2026-01-12 25:99 x") = none :=
  ⟨by decide,
   c5_add_range_rejected_amended.1 ("2026-01-12 25:99 x") ("2026-01-12") 25 99 ["x"] (by decide) (by decide)
     (by decide) (by decide)⟩

/-- Counterexample to C5 as stated: part_001's add accepts 25:99, the
store gains a record with the invalid instant, and a save is
performed. -/
theorem c5_counterexample :
    (handleEvent ("add 2026-01-12 25:99 x") []).store =
      [⟨Jid.num 1, "2026-01-12T25:99:00+09:00", "x", false⟩]
    ∧ (handleEvent ("add 2026-01-12 25:99 x") []).saves = 1 := by
  refine ⟨by decide, by decide⟩



/-- C6, amended.  The claim as stated is false: no handler accepts both
spellings - part_001 accepts remove and delete (coercing the stored id
with Number), variant 3 accepts only del (strict id equality); the
token del reaches part_001's unrecognized-subcommand branch (see the
counterexample).  Amended claim: for a store containing exactly one
matching record, part_001's remove/delete removes exactly that record
(numeric comparison, coercing the stored id), saves the shrunk
collection and confirms with the id, and variant 3's del does the same
under strict id equality. -/
theorem c6_removal_spelling_amended (sub idt : String) (id : Int) (events : List Event)
    (hsub : sub = "remove" ∨ sub = "delete")
    (hid : jsNumStr idt = some id)
    (hone : (events.filter (fun e => jidNum e.id == some id)).length = 1)
    (hone3 : (events.filter (fun e => e.id == Jid.num id)).length = 1) :
    ((handleTokens ([sub, idt]) events).store =
        events.filter (fun e => !(jidNum e.id == some id))
      ∧ (handleTokens ([sub, idt]) events).store.length + 1 = events.length
      ∧ (handleTokens ([sub, idt]) events).saves = 1
      ∧ (handleTokens ([sub, idt]) events).reply = some (removedMsg id))
    ∧ delV3Run [idt] events =
        ⟨events.filter (fun e => !(e.id == Jid.num id)), 1, some (delOkV3 id)⟩ := by
  have hsplit := List.length_eq_length_filter_add (l := events)
    (fun e => jidNum e.id == some id)
  have hsplit3 := List.length_eq_length_filter_add (l := events)
    (fun e => e.id == Jid.num id)
  have hlen : (events.filter (fun e => !(jidNum e.id == some id))).length + 1 = events.length := by
    rw [hsplit]
    rw [hone]
    omega
  have hlen3 : (events.filter (fun e => !(e.id == Jid.num id))).length + 1 = events.length := by
    rw [hsplit3]
    rw [hone3]
    omega
  have hne : ¬ ((events.filter (fun e => !(jidNum e.id == some id))).length = events.length) := by
    omega
  have hne3 : ¬ ((events.filter (fun e => !(e.id == Jid.num id))).length = events.length) := by
    omega
  have hbranch : handleTokens ([sub, idt]) events =
      ⟨events.filter (fun e => !(jidNum e.id == some id)), 1, some (removedMsg id)⟩ := by
    unfold handleTokens
    dsimp only
    have hna : ¬ (sub = "add") := by
      rcases hsub with rfl | rfl <;> decide
    have hnl : ¬ (sub = "list") := by
      rcases hsub with rfl | rfl <;> decide
    rw [if_neg hna, if_neg hnl, if_pos hsub]
    rw [hid]
    dsimp only
    rw [if_neg hne]
  refine ⟨?_, ?_⟩
  · rw [hbranch]
    exact ⟨rfl, hlen, rfl, rfl⟩
  · unfold delV3Run
    dsimp only
    rw [hid]
    dsimp only
    rw [if_neg hne3]

/-- Witness for c6_removal_spelling_amended: removing id 1 from a
two-record store. -/
theorem c6_witness :
    ((("remove" : String) = "remove" ∨ ("remove" : String) = "delete")
      ∧ jsNumStr ("1") = some 1
      ∧ (([⟨Jid.num 1, "2026-01-12T09:30:00+09:00", "a", false⟩,
           ⟨Jid.num 2, "2026-01-13T09:30:00+09:00", "b", false⟩] : List Event).filter
          (fun e => jidNum e.id == some 1)).length = 1
      ∧ (([⟨Jid.num 1, "2026-01-12T09:30:00+09:00", "a", false⟩,
           ⟨Jid.num 2, "2026-01-13T09:30:00+09:00", "b", false⟩] : List Event).filter
          (fun e => e.id == Jid.num 1)).length = 1)
    ∧ (((handleTokens (["remove", "1"])
          [⟨Jid.num 1, "2026-01-12T09:30:00+09:00", "a", false⟩,
           ⟨Jid.num 2, "2026-01-13T09:30:00+09:00", "b", false⟩]).store =
        ([⟨Jid.num 1, "2026-01-12T09:30:00+09:00", "a", false⟩,
          ⟨Jid.num 2, "2026-01-13T09:30:00+09:00", "b", false⟩] : List Event).filter
          (fun e => !(jidNum e.id == some 1))
      ∧ (handleTokens (["remove", "1"])
          [⟨Jid.num 1, "2026-01-12T09:30:00+09:00", "a", false⟩,
           ⟨Jid.num 2, "2026-01-13T09:30:00+09:00", "b", false⟩]).store.length + 1 =
          ([⟨Jid.num 1, "2026-01-12T09:30:00+09:00", "a", false⟩,
            ⟨Jid.num 2, "2026-01-13T09:30:00+09:00", "b", false⟩] : List Event).length
      ∧ (handleTokens (["remove", "1"])
          [⟨Jid.num 1, "2026-01-12T09:30:00+09:00", "a", false⟩,
           ⟨Jid.num 2, "2026-01-13T09:30:00+09:00", "b", false⟩]).saves = 1
      ∧ (handleTokens (["remove", "1"])
          [⟨Jid.num 1, "2026-01-12T09:30:00+09:00", "a", false⟩,
           ⟨Jid.num 2, "2026-01-13T09:30:00+09:00", "b", false⟩]).reply =
          some (removedMsg 1))
      ∧ delV3Run ["1"]
          [⟨Jid.num 1, "2026-01-12T09:30:00+09:00", "a", false⟩,
           ⟨Jid.num 2, "2026-01-13T09:30:00+09:00", "b", false⟩] =
        ⟨([⟨Jid.num 1, "2026-01-12T09:30:00+09:00", "a", false⟩,
           ⟨Jid.num 2, "2026-01-13T09:30:00+09:00", "b", false⟩] : List Event).filter
            (fun e => !(e.id == Jid.num 1)), 1, some (delOkV3 1)⟩) :=
  ⟨⟨Or.inl rfl, by decide, by decide, by decide⟩,
   c6_removal_spelling_amended ("remove") ("1") 1
     [⟨Jid.num 1, "2026-01-12T09:30:00+09:00", "a", false⟩,
      ⟨Jid.num 2, "2026-01-13T09:30:00+09:00", "b", false⟩]
     (Or.inl rfl) (by decide) (by decide) (by decide)⟩

/-- Counterexample to C6 as stated: the spelling del is not recognized
by part_001 (store untouched, unknown-subcommand reply), and the
spelling remove is not recognized by variant 3. -/
theorem c6_counterexample :
    (handleEvent ("del 1") [⟨Jid.num 1, "2026-01-12T09:30:00+09:00", "Standup", false⟩]).store =
      [⟨Jid.num 1, "2026-01-12T09:30:00+09:00", "Standup", false⟩]
    ∧ (handleEvent ("del 1")
        [⟨Jid.num 1, "2026-01-12T09:30:00+09:00", "Standup", false⟩]).reply = some unknownMsg
    ∧ (handleTokensV3 540 (toks ("remove 1"))
        [⟨Jid.num 1, "2026-01-12T09:30:00+09:00", "Standup", false⟩]).store =
      [⟨Jid.num 1, "2026-01-12T09:30:00+09:00", "Standup", false⟩]
    ∧ (handleTokensV3 540 (toks ("remove 1"))
        [⟨Jid.num 1, "2026-01-12T09:30:00+09:00", "Standup", false⟩]).reply = some unknownV3 := by
  refine ⟨by decide, by decide, by decide, by decide⟩

/-! ## nextId characterization -/

lemma foldr_max_shift : ∀ (l : List Int) (a b : Int),
    l.foldr max (max a b) = max a (l.foldr max b) := by
  intro l
  induction l with
  | nil => intro a b; rfl
  | cons x l ih =>
    intro a b
    show max x (l.foldr max (max a b)) = max a (max x (l.foldr max b))
    rw [ih a b]
    exact max_left_comm x a _

lemma foldl_max_eq_foldr : ∀ (l : List Int) (acc : Int), l.foldl max acc = l.foldr max acc := by
  intro l
  induction l with
  | nil => intro acc; rfl
  | cons x l ih =>
    intro acc
    show l.foldl max (max acc x) = max x (l.foldr max acc)
    rw [ih (max acc x), max_comm acc x, foldr_max_shift]

lemma nextId_fold : ∀ (events : List Event) (acc : Int),
    events.foldl nextIdStep acc = (numericIds events).foldl max acc := by
  intro events
  induction events with
  | nil => intro acc; rfl
  | cons e events ih =>
    intro acc
    cases h : jidNum e.id with
    | none =>
      rw [List.foldl_cons, show nextIdStep acc e = acc from by unfold nextIdStep; rw [h], ih acc]
      unfold numericIds
      rw [List.filterMap_cons]
      simp [h]
    | some n =>
      rw [List.foldl_cons, show nextIdStep acc e = max acc n from by unfold nextIdStep; rw [h],
        ih (max acc n)]
      unfold numericIds
      rw [List.filterMap_cons]
      simp [h]

lemma nextIdB_fold : ∀ (events : List Event) (acc : Int), 0 ≤ acc →
    events.foldl (fun mx e => max mx ((jidNum e.id).getD 0)) acc =
      events.foldl nextIdStep acc := by
  intro events
  induction events with
  | nil => intro acc _; rfl
  | cons e events ih =>
    intro acc hacc
    rw [List.foldl_cons, List.foldl_cons]
    cases h : jidNum e.id with
    | none =>
      simp only [Option.getD_none]
      rw [max_eq_left hacc]
      rw [show nextIdStep acc e = acc from by unfold nextIdStep; rw [h]]
      exact ih acc hacc
    | some n =>
      simp only [Option.getD_some]
      rw [show nextIdStep acc e = max acc n from by unfold nextIdStep; rw [h]]
      exact ih (max acc n) (le_trans hacc (le_max_left _ _))

/-- C7, amended.  The claim as stated is false for variant 3's nextId,
which spreads the raw ids into Math.max with no NaN guard: a single
non-numeric id makes the result NaN instead of treating it as 0 (see
the counterexample).  Amended claim: the part_001 nextId and the first
part_000 nextId both return one greater than the maximum of 0 and the
Number-coercible ids present (1 for an empty collection or when no id
coerces, negative ids floored at 0, non-numeric ids skipped / coerced
to 0); variant 3's nextId instead returns NaN whenever any id fails to
coerce. -/
theorem c7_next_id_amended :
    (∀ events : List Event, nextId events = (numericIds events).foldr max 0 + 1)
    ∧ (∀ events : List Event, nextIdB events = nextId events)
    ∧ (∀ events : List Event, (∃ e ∈ events, jidNum e.id = none) → nextIdC events = none) := by
  refine ⟨?_, ?_, ?_⟩
  · intro events
    unfold nextId
    rw [nextId_fold events 0, foldl_max_eq_foldr]
  · intro events
    unfold nextIdB nextId
    rw [nextIdB_fold events 0 le_rfl]
  · intro events
    intro ⟨e, he, hnone⟩
    have hco : ∀ es : List Event, (∃ x ∈ es, jidNum x.id = none) → coercedIds es = none := by
      intro es
      induction es with
      | nil => intro ⟨x, hx, _⟩; simp at hx
      | cons a es ih =>
        intro ⟨x, hx, hxn⟩
        rcases List.mem_cons.mp hx with rfl | hx'
        · unfold coercedIds
          rw [hxn]
        · unfold coercedIds
          cases h : jidNum a.id with
          | none => rfl
          | some n =>
            rw [ih ⟨x, hx', hxn⟩]
            rfl
    unfold nextIdC
    cases events with
    | nil => simp at he
    | cons a es =>
      rw [hco (a :: es) ⟨e, he, hnone⟩]

/-- Witness for c7_next_id_amended: a single non-coercible id makes
variant 3's nextId NaN. -/
theorem c7_witness :
    (∃ x ∈ ([⟨Jid.other, "e", "t", false⟩] : List Event), jidNum x.id = none)
    ∧ nextIdC [⟨Jid.other, "e", "t", false⟩] = none :=
  ⟨⟨⟨Jid.other, "e", "t", false⟩, by decide, by decide⟩,
   c7_next_id_amended.2.2 [⟨Jid.other, "e", "t", false⟩]
     ⟨⟨Jid.other, "e", "t", false⟩, by decide, by decide⟩⟩

/-- Counterexample to C7 as stated: on a collection whose only id is
the non-numeric string x, variant 3's nextId is NaN (none), not the 1
the claim requires when no valid numeric ids exist. -/
theorem c7_counterexample :
    nextIdC [⟨Jid.str ("x"), "e", "t", false⟩] = none
    ∧ (none : Option Int) ≠ some 1
    ∧ jidNum (Jid.str ("x")) = none := by
  refine ⟨by decide, by decide, by decide⟩

/-! ## The list command and the store file -/

lemma clLe_total : ∀ (a b : List Char), clLe a b = true ∨ clLe b a = true := by
  intro a
  induction a with
  | nil => intro b; exact Or.inl rfl
  | cons x xs ih =>
    intro b
    cases b with
    | nil => exact Or.inr rfl
    | cons y ys =>
      by_cases h1 : x.toNat < y.toNat
      · left
        rw [clLe, if_pos h1]
      · by_cases h2 : y.toNat < x.toNat
        · right
          rw [clLe, if_pos h2]
        · have hxy : ¬ (y.toNat < x.toNat) := h2
          rcases ih ys with h | h
          · left
            rw [clLe, if_neg h1, if_neg h2]
            exact h
          · right
            rw [clLe, if_neg h2, if_neg h1]
            exact h

lemma clLe_trans : ∀ (a b c : List Char), clLe a b = true → clLe b c = true → clLe a c = true := by
  intro a
  induction a with
  | nil => intro b c _ _; rfl
  | cons x xs ih =>
    intro b c hab hbc
    cases b with
    | nil => rw [clLe] at hab; exact absurd hab (by simp)
    | cons y ys =>
      cases c with
      | nil => rw [clLe] at hbc; exact absurd hbc (by simp)
      | cons z zs =>
        rw [clLe] at hab hbc ⊢
        by_cases h1 : x.toNat < y.toNat
        · by_cases h2 : y.toNat < z.toNat
          · rw [if_pos (by omega : x.toNat < z.toNat)]
          · by_cases h3 : z.toNat < y.toNat
            · rw [if_neg h2, if_pos h3] at hbc
              exact absurd hbc (by simp)
            · rw [if_pos (by omega : x.toNat < z.toNat)]
        · by_cases h1' : y.toNat < x.toNat
          · rw [if_neg h1, if_pos h1'] at hab
            exact absurd hab (by simp)
          · by_cases h2 : y.toNat < z.toNat
            · rw [if_pos (by omega : x.toNat < z.toNat)]
            · by_cases h3 : z.toNat < y.toNat
              · rw [if_neg h2, if_pos h3] at hbc
                exact absurd hbc (by simp)
              · rw [if_neg (by omega : ¬ (x.toNat < z.toNat)),
                  if_neg (by omega : ¬ (z.toNat < x.toNat))]
                rw [if_neg h1, if_neg h1'] at hab
                rw [if_neg h2, if_neg h3] at hbc
                exact ih ys zs hab hbc

lemma isoLe_total (a b : Event) : isoLe a b = true ∨ isoLe b a = true :=
  clLe_total a.isoJst.toList b.isoJst.toList

lemma isoLe_trans (a b c : Event) : isoLe a b = true → isoLe b c = true → isoLe a c = true :=
  clLe_trans a.isoJst.toList b.isoJst.toList c.isoJst.toList

lemma mem_insertLe (le : Event → Event → Bool) (a x : Event) :
    ∀ l : List Event, x ∈ insertLe le a l ↔ x = a ∨ x ∈ l := by
  intro l
  induction l with
  | nil => simp [insertLe]
  | cons b bs ih =>
    by_cases h : le a b
    · rw [insertLe, if_pos h]
      simp
    · rw [insertLe, if_neg h]
      simp only [List.mem_cons, ih]
      tauto

lemma pairwise_insertLe (le : Event → Event → Bool)
    (htot : ∀ a b, le a b = true ∨ le b a = true)
    (htr : ∀ a b c, le a b = true → le b c = true → le a c = true) (a : Event) :
    ∀ l : List Event, List.Pairwise (fun x y => le x y = true) l →
      List.Pairwise (fun x y => le x y = true) (insertLe le a l) := by
  intro l
  induction l with
  | nil => intro _; simp [insertLe]
  | cons b bs ih =>
    intro hp
    by_cases h : le a b
    · rw [insertLe, if_pos h]
      refine List.Pairwise.cons ?_ hp
      intro x hx
      rcases List.mem_cons.mp hx with rfl | hx'
      · exact h
      · exact htr a b x h (List.rel_of_pairwise_cons hp hx')
    · rw [insertLe, if_neg h]
      have hba : le b a = true := by
        rcases htot a b with h1 | h1
        · exact absurd h1 h
        · exact h1
      refine List.Pairwise.cons ?_ (ih (List.Pairwise.sublist (List.sublist_cons_self b bs) hp))
      intro x hx
      rcases (mem_insertLe le a x bs).mp hx with rfl | hx'
      · exact hba
      · exact List.rel_of_pairwise_cons hp hx'

lemma pairwise_sortByLe (le : Event → Event → Bool)
    (htot : ∀ a b, le a b = true ∨ le b a = true)
    (htr : ∀ a b c, le a b = true → le b c = true → le a c = true) :
    ∀ l : List Event, List.Pairwise (fun x y => le x y = true) (sortByLe le l) := by
  intro l
  induction l with
  | nil => simp [sortByLe]
  | cons a as ih =>
    rw [sortByLe]
    exact pairwise_insertLe le htot htr a (sortByLe le as) ih

lemma perm_insertLe (le : Event → Event → Bool) (a : Event) :
    ∀ l : List Event, List.Perm (insertLe le a l) (a :: l) := by
  intro l
  induction l with
  | nil => simp [insertLe]
  | cons b bs ih =>
    by_cases h : le a b
    · rw [insertLe, if_pos h]
    · rw [insertLe, if_neg h]
      exact (List.Perm.cons b ih).trans (List.Perm.swap a b bs)

lemma perm_sortByLe (le : Event → Event → Bool) :
    ∀ l : List Event, List.Perm (sortByLe le l) l := by
  intro l
  induction l with
  | nil => simp [sortByLe]
  | cons a as ih =>
    rw [sortByLe]
    exact (perm_insertLe le a (sortByLe le as)).trans (List.Perm.cons a ih)

lemma renderLines_length : ∀ (l : List Event) (ls : List String),
    renderLines l = some ls → ls.length = l.length := by
  intro l
  induction l with
  | nil =>
    intro ls h
    rw [renderLines] at h
    simp at h
    simp [h]
  | cons e es ih =>
    intro ls h
    rw [renderLines] at h
    cases hf : formatJst e.isoJst with
    | none => rw [hf] at h; exact absurd h (by simp)
    | some k =>
      rw [hf] at h
      rcases Option.map_eq_some'.mp h with ⟨ls', hls', rfl⟩
      simp [ih ls' hls']



/-- C8, amended.  The claim as stated ("sorted non-decreasing by
scheduled instant ... for all store contents") is false for part_001's
list, which sorts the raw isoJst strings: for records whose isoJst
carry different UTC offsets, string order and instant order differ (see
the counterexample, whose output shows the later instant first).
Amended claim: the list command never mutates the store and performs no
save, replies with the explicit no-events message on an empty store,
and otherwise outputs the records sorted non-decreasing by the isoJst
string (which coincides with instant order for the uniform
+09:00-stamped records the add command creates), truncated to at most
50 lines, each line showing id, formatted instant, title and the
done/pending glyph. -/
theorem c8_list_amended :
    (∀ events : List Event,
        (handleTokens (["list"]) events).store = events
      ∧ (handleTokens (["list"]) events).saves = 0
      ∧ List.Pairwise (fun a b => isoLe a b = true) (sortByLe isoLe events)
      ∧ List.Perm (sortByLe isoLe events) events
      ∧ ∀ ls, renderLines ((sortByLe isoLe events).take 50) = some ls → ls.length ≤ 50)
    ∧ (handleTokens (["list"]) []).reply = some noEventsMsg := by
  constructor
  · intro events
    have hbranch : (handleTokens (["list"]) events).store = events
        ∧ (handleTokens (["list"]) events).saves = 0 := by
      unfold handleTokens
      dsimp only
      rw [if_neg (by decide : ¬ ("list" : String) = "add"),
        if_pos (rfl : ("list" : String) = "list")]
      by_cases h : sortByLe isoLe events = []
      · rw [if_pos h]
        exact ⟨rfl, rfl⟩
      · rw [if_neg h]
        cases hr : renderLines ((sortByLe isoLe events).take 50) with
        | none => exact ⟨rfl, rfl⟩
        | some ls => exact ⟨rfl, rfl⟩
    refine ⟨hbranch.1, hbranch.2, pairwise_sortByLe isoLe isoLe_total isoLe_trans events,
      perm_sortByLe isoLe events, ?_⟩
    intro ls h
    rw [renderLines_length _ ls h]
    exact List.length_take_le 50 _
  · decide

/-- Witness for c8_list_amended: the rendered lines of a one-record
store. -/
theorem c8_witness :
    renderLines ((sortByLe isoLe
        [⟨Jid.num 1, "2026-01-02T09:00:00+09:00", "A", false⟩]).take 50) =
      some ["• [1] 2026-01-02 09:00  A  ⏳"]
    ∧ (["• [1] 2026-01-02 09:00  A  ⏳"] : List String).length ≤ 50 :=
  ⟨by decide,
   (c8_list_amended.1 [⟨Jid.num 1, "2026-01-02T09:00:00+09:00", "A", false⟩]).2.2.2.2
     ["• [1] 2026-01-02 09:00  A  ⏳"] (by decide)⟩

/-- Counterexample to C8 as stated: two records at UTC instants
2026-01-02 00:00 and 01:00, stored with offsets +09:00 and -02:00; the
string sort puts the later instant first, and the list reply shows the
JST keys out of chronological order. -/
theorem c8_counterexample :
    sortByLe isoLe
        [⟨Jid.num 1, "2026-01-02T09:00:00+09:00", "A", false⟩,
         ⟨Jid.num 2, "2026-01-01T23:00:00-02:00", "B", false⟩] =
      [⟨Jid.num 2, "2026-01-01T23:00:00-02:00", "B", false⟩,
       ⟨Jid.num 1, "2026-01-02T09:00:00+09:00", "A", false⟩]
    ∧ jsDateUtc ("2026-01-02T09:00:00+09:00") = some ⟨2026, 1, 2, 0, 0, 0⟩
    ∧ jsDateUtc ("2026-01-01T23:00:00-02:00") = some ⟨2026, 1, 2, 1, 0, 0⟩
    ∧ civilLt ⟨2026, 1, 2, 0, 0, 0⟩ ⟨2026, 1, 2, 1, 0, 0⟩ = true
    ∧ (handleEvent ("list")
        [⟨Jid.num 1, "2026-01-02T09:00:00+09:00", "A", false⟩,
         ⟨Jid.num 2, "2026-01-01T23:00:00-02:00", "B", false⟩]).reply =
      some ("イベント一覧（最大50件）\n• [2] 2026-01-02 10:00  B  ⏳\n• [1] 2026-01-02 09:00  A  ⏳") := by
  refine ⟨by decide, by decide, by decide, by decide, by decide⟩



/-- C10, amended.  The claim as stated is false: an existing but
unparsable events.json is left in place, not (re)initialized
(ensureDataFile writes [] only when the file does not exist; see the
counterexample), and variant 3's loadEvents neither creates a missing
file nor checks Array.isArray (a parseable non-array value is returned
as-is, not a sequence).  Amended claim: loadEvents always recovers
without surfacing an error - a missing file is initialized to the empty
array and read back as [], and a corrupt file yields [] while staying
corrupt on disk until the next save; in variant 3 a missing file yields
[] with no initialization. -/
theorem c10_load_amended :
    ((loadEvents1 none).1 = [] ∧ (loadEvents1 none).2 = some (FileContent.arr []))
    ∧ ((loadEvents1 (some FileContent.badJson)).1 = []
      ∧ (loadEvents1 (some FileContent.badJson)).2 = some FileContent.badJson)
    ∧ (loadEvents1 (some FileContent.nonArrJson)).1 = []
    ∧ (∀ es : List Event, loadEvents1 (some (FileContent.arr es)) = (es, some (FileContent.arr es)))
    ∧ ((loadEvents3 none).1 = some [] ∧ (loadEvents3 none).2 = none)
    ∧ (loadEvents3 (some FileContent.badJson)).1 = some []
    ∧ (loadEvents3 (some FileContent.nonArrJson)).1 = none := by
  refine ⟨⟨rfl, rfl⟩, ⟨rfl, rfl⟩, rfl, fun es => rfl, ⟨rfl, rfl⟩, rfl, rfl⟩

/-- Counterexample to C10 as stated: loading a corrupt file returns []
but leaves the resource unparsable rather than reinitializing it;
variant 3 leaves a missing file absent and returns a non-sequence for a
parseable non-array file. -/
theorem c10_counterexample :
    (loadEvents1 (some FileContent.badJson)).1 = []
    ∧ (loadEvents1 (some FileContent.badJson)).2 = some FileContent.badJson
    ∧ some FileContent.badJson ≠ some (FileContent.arr ([] : List Event))
    ∧ (loadEvents3 none).2 = none
    ∧ (none : Option FileContent) ≠ some (FileContent.arr ([] : List Event))
    ∧ (loadEvents3 (some FileContent.nonArrJson)).1 = none := by
  refine ⟨by decide, by decide, by decide, by decide, by decide, by decide⟩

end SlackEventBot
